import Mathlib

/-!
Shallow embedding of the session-lifecycle and hour-ledger engine of the
tutoring-management service (Fastify + Prisma API), together with proofs
about its behaviour.

Conventions of the embedding:
* instants are modelled as `Int` milliseconds since the Unix epoch
  (JavaScript `Date.getTime()` semantics);
* database tables are modelled as Lean lists of records, in insertion
  order; Prisma's `findFirst` / `findUnique` become `List.find?`, row
  updates become `List.map` over the matching id, and `prisma.$transaction`
  is modelled as the atomic construction of the next state (that is the
  guarantee the primitive provides);
* JavaScript `BigInt` division truncates toward zero, modelled by
  `Int.tdiv`; the JavaScript numbers accumulated in the payroll hour
  totals are IEEE-754 binary64 values, modelled as `F64`
  (mantissa/exponent pairs with correctly rounded, round-to-nearest,
  ties-to-even division and addition over the nonnegative normal range
  the loop inhabits); integer-valued number fields (cents, counts) stay
  exact in binary64 over the realistic range and are modelled as integers;
* the org-scoping, auth and audit-log parts of each route are out of the
  spec's core and are not modelled.
-/

namespace Guiguan

/-- Session lifecycle states, from the Prisma `SessionStatus` enum. -/
inductive SessionStatus where
  | SCHEDULED
  | CANCELLED
  | COMPLETED
deriving DecidableEq, Repr

/-- Currency codes, from the Prisma `Currency` enum. -/
inductive Currency where
  | AUD
  | CNY
  | USD
deriving DecidableEq, Repr

/-- String code of a currency, as serialized in API responses. -/
def currencyCode : Currency → String
  | Currency.AUD => "AUD"
  | Currency.CNY => "CNY"
  | Currency.USD => "USD"

/-- Hour-ledger entry reasons, from the Prisma `HourLedgerReason` enum. -/
inductive HourLedgerReason where
  | PURCHASE
  | ADJUSTMENT
  | SESSION_CONSUME
deriving DecidableEq, Repr

/-- Change-request kinds, from the Prisma `ChangeRequestType` enum. -/
inductive ChangeRequestType where
  | CANCEL
  | RESCHEDULE
deriving DecidableEq, Repr

/-- Change-request lifecycle states, from the Prisma `ChangeRequestStatus` enum. -/
inductive ChangeRequestStatus where
  | PENDING
  | APPROVED
  | REJECTED
deriving DecidableEq, Repr

/-- A row of the `Session` table (fields the core logic reads and writes). -/
structure Session where
  id : Nat
  teacherId : Nat
  studentId : Nat
  subject : Nat
  startAtUtc : Int
  endAtUtc : Int
  classTimeZone : String
  consumesUnits : Int
  status : SessionStatus
  rateCentsSnapshot : Int
  currencySnapshot : Currency
deriving DecidableEq, Repr

/-- A row of the `HourLedgerEntry` table. -/
structure HourLedgerEntry where
  studentId : Nat
  teacherId : Option Nat
  deltaUnits : Int
  reason : HourLedgerReason
  sessionId : Option Nat
deriving DecidableEq, Repr

/-- A row of the `ChangeRequest` table. -/
structure ChangeRequest where
  id : Nat
  sessionId : Nat
  type : ChangeRequestType
  status : ChangeRequestStatus
  proposedStartAtUtc : Option Int
  proposedEndAtUtc : Option Int
  proposedTimeZone : Option String
  requestedByUserId : Nat
  decidedByAdminId : Option Nat
deriving DecidableEq, Repr

/-- An active rate row, as selected by `teacherStudentRate.findUnique`. -/
structure RateSnapshot where
  hourlyRateCents : Int
  currency : Currency
deriving DecidableEq, Repr

/-! ## Session creation (`POST /sessions`, admin routes) -/

/-- Payload of `POST /sessions` after zod coercion (`createSessionBodySchema`). -/
structure CreateSessionPayload where
  teacherId : Nat
  studentId : Nat
  subject : Nat
  startAtUtc : Int
  endAtUtc : Int
  classTimeZone : String
  consumesUnits : Int
deriving DecidableEq, Repr

/-- The `.refine` on `createSessionBodySchema`: `endAtUtc` must be after `startAtUtc`. -/
def createBodyValid (p : CreateSessionPayload) : Bool :=
  decide (p.startAtUtc < p.endAtUtc)

/-- The `findFirst` condition of the conflict check in `POST /sessions`:
same teacher, status `SCHEDULED`, and `startAtUtc < new.end ∧ endAtUtc > new.start`. -/
def sessionOverlapsNew (teacherId : Nat) (startAt endAt : Int) (s : Session) : Bool :=
  s.teacherId == teacherId && s.status == SessionStatus.SCHEDULED &&
    decide (s.startAtUtc < endAt) && decide (s.endAtUtc > startAt)

/-- Outcome of the `POST /sessions` handler (HTTP codes 400 / 409 / 201). -/
inductive CreateSessionOutcome where
  | badRequest
  | conflict (conflictSessionId : Nat)
  | created (id : Nat)
deriving DecidableEq, Repr

/-- The `POST /sessions` handler after teacher/student checks, with the rate
already resolved (the route fails 404 before this point when no rate exists).
Returns the outcome and the resulting `Session` table. -/
def createSession (db : List Session) (p : CreateSessionPayload) (rate : RateSnapshot)
    (newId : Nat) : CreateSessionOutcome × List Session :=
  if createBodyValid p then
    match db.find? (sessionOverlapsNew p.teacherId p.startAtUtc p.endAtUtc) with
    | some s => (CreateSessionOutcome.conflict s.id, db)
    | none =>
        (CreateSessionOutcome.created newId,
          db ++ [{ id := newId, teacherId := p.teacherId, studentId := p.studentId,
                   subject := p.subject, startAtUtc := p.startAtUtc, endAtUtc := p.endAtUtc,
                   classTimeZone := p.classTimeZone, consumesUnits := p.consumesUnits,
                   status := SessionStatus.SCHEDULED, rateCentsSnapshot := rate.hourlyRateCents,
                   currencySnapshot := rate.currency }])
  else (CreateSessionOutcome.badRequest, db)

/-! ## Session edit (`PATCH /sessions/:id`, admin routes) -/

/-- Payload of `PATCH /sessions/:id` (`updateSessionBodySchema`), all optional. -/
structure UpdateSessionBody where
  subject : Option Nat
  startAtUtc : Option Int
  endAtUtc : Option Int
  classTimeZone : Option String
  consumesUnits : Option Int
  status : Option SessionStatus
deriving DecidableEq, Repr

/-- The `.refine` on `updateSessionBodySchema`: only when BOTH bounds are
supplied does it require `endAtUtc > startAtUtc`. -/
def updateBodyValid (b : UpdateSessionBody) : Bool :=
  match b.startAtUtc, b.endAtUtc with
  | some s, some e => decide (s < e)
  | _, _ => true

/-- Outcome of the `PATCH /sessions/:id` handler. -/
inductive UpdateSessionOutcome where
  | badRequest
  | notFound
  | notEditable
  | invalidStatusTarget
  | rateNotFound
  | conflict (conflictSessionId : Nat)
  | ok
deriving DecidableEq, Repr

/-- Applies the resolved partial update to the existing session row
(the `data` object of `prisma.session.update`). -/
def applySessionUpdate (existing : Session) (b : UpdateSessionBody)
    (nextSubject : Nat) (nextStartAtUtc nextEndAtUtc : Int) (nextStatus : SessionStatus)
    (newRate : Option RateSnapshot) : Session :=
  { existing with
    subject := nextSubject,
    startAtUtc := nextStartAtUtc,
    endAtUtc := nextEndAtUtc,
    classTimeZone := b.classTimeZone.getD existing.classTimeZone,
    consumesUnits := b.consumesUnits.getD existing.consumesUnits,
    status := nextStatus,
    rateCentsSnapshot := (newRate.map (fun r => r.hourlyRateCents)).getD existing.rateCentsSnapshot,
    currencySnapshot := (newRate.map (fun r => r.currency)).getD existing.currencySnapshot }

/-- The `PATCH /sessions/:id` handler. `rates teacherId studentId subject` models
`teacherStudentRate.findUnique` on the compound key. -/
def updateSession (db : List Session) (sid : Nat) (b : UpdateSessionBody)
    (rates : Nat → Nat → Nat → Option RateSnapshot) : UpdateSessionOutcome × List Session :=
  if updateBodyValid b then
    match db.find? (fun s => s.id == sid) with
    | none => (UpdateSessionOutcome.notFound, db)
    | some existing =>
      if existing.status ≠ SessionStatus.SCHEDULED then (UpdateSessionOutcome.notEditable, db)
      else
        let nextSubject := b.subject.getD existing.subject
        let nextStartAtUtc := b.startAtUtc.getD existing.startAtUtc
        let nextEndAtUtc := b.endAtUtc.getD existing.endAtUtc
        let nextStatus := b.status.getD existing.status
        if nextStatus ≠ SessionStatus.SCHEDULED ∧ nextStatus ≠ SessionStatus.CANCELLED then
          (UpdateSessionOutcome.invalidStatusTarget, db)
        else
          match db.find? (fun s => s.id != existing.id && s.teacherId == existing.teacherId &&
              s.status == SessionStatus.SCHEDULED &&
              decide (s.startAtUtc < nextEndAtUtc) && decide (s.endAtUtc > nextStartAtUtc)) with
          | some c => (UpdateSessionOutcome.conflict c.id, db)
          | none =>
            if nextSubject = existing.subject then
              (UpdateSessionOutcome.ok,
                db.map (fun s => if s.id == sid then
                  applySessionUpdate existing b nextSubject nextStartAtUtc nextEndAtUtc nextStatus none
                else s))
            else
              match rates existing.teacherId existing.studentId nextSubject with
              | none => (UpdateSessionOutcome.rateNotFound, db)
              | some r =>
                (UpdateSessionOutcome.ok,
                  db.map (fun s => if s.id == sid then
                    applySessionUpdate existing b nextSubject nextStartAtUtc nextEndAtUtc nextStatus (some r)
                  else s))
  else (UpdateSessionOutcome.badRequest, db)

/-! ## Change-request creation (`POST /sessions/:id/change-requests`, student routes) -/

/-- Parsed body of the student change-request route (`createChangeRequestBodySchema`). -/
inductive ChangeRequestBody where
  | cancel
  | reschedule (proposedStartAtUtc proposedEndAtUtc : Int) (proposedTimeZone : String)
deriving DecidableEq, Repr

/-- The `.superRefine`: for `RESCHEDULE`, `proposedEndAtUtc` must be after
`proposedStartAtUtc`. -/
def changeRequestBodyValid : ChangeRequestBody → Bool
  | ChangeRequestBody.cancel => true
  | ChangeRequestBody.reschedule ps pe _ => decide (ps < pe)

/-- Outcome of `POST /sessions/:id/change-requests` (400 / 404 / 409 / 403 / 409 / 201). -/
inductive CreateChangeRequestOutcome where
  | badRequest
  | notFoundSession
  | sessionNotSchedulable
  | forbiddenPastCutoff
  | conflictPendingExists
  | created (id : Nat)
deriving DecidableEq, Repr

/-- One day in milliseconds: the `24 * 60 * 60 * 1000` of the cutoff computation. -/
def msPerDay : Int := 86400000

/-- The change request persisted by the route for a given parsed body. -/
def newChangeRequest (newId sessionId requesterId : Nat) : ChangeRequestBody → ChangeRequest
  | ChangeRequestBody.cancel =>
      { id := newId, sessionId := sessionId, type := ChangeRequestType.CANCEL,
        status := ChangeRequestStatus.PENDING, proposedStartAtUtc := none,
        proposedEndAtUtc := none, proposedTimeZone := none,
        requestedByUserId := requesterId, decidedByAdminId := none }
  | ChangeRequestBody.reschedule ps pe tz =>
      { id := newId, sessionId := sessionId, type := ChangeRequestType.RESCHEDULE,
        status := ChangeRequestStatus.PENDING, proposedStartAtUtc := some ps,
        proposedEndAtUtc := some pe, proposedTimeZone := some tz,
        requestedByUserId := requesterId, decidedByAdminId := none }

/-- The `POST /sessions/:id/change-requests` handler: body validation, ownership
lookup, status gate, 24h cutoff (`now > startAt − 24h` is forbidden), duplicate
pending check, then persistence. Returns the outcome and the change-request table. -/
def createChangeRequest (sessions : List Session) (crs : List ChangeRequest)
    (sid requesterId : Nat) (body : ChangeRequestBody) (nowUtc : Int) (newId : Nat) :
    CreateChangeRequestOutcome × List ChangeRequest :=
  if changeRequestBodyValid body then
    match sessions.find? (fun s => s.id == sid && s.studentId == requesterId) with
    | none => (CreateChangeRequestOutcome.notFoundSession, crs)
    | some session =>
      if session.status ≠ SessionStatus.SCHEDULED then
        (CreateChangeRequestOutcome.sessionNotSchedulable, crs)
      else
        let cutoffUtc := session.startAtUtc - msPerDay
        if cutoffUtc < nowUtc then (CreateChangeRequestOutcome.forbiddenPastCutoff, crs)
        else
          if (crs.find? (fun c => c.sessionId == session.id &&
              c.status == ChangeRequestStatus.PENDING)).isSome then
            (CreateChangeRequestOutcome.conflictPendingExists, crs)
          else
            (CreateChangeRequestOutcome.created newId,
              crs ++ [newChangeRequest newId session.id requesterId body])
  else (CreateChangeRequestOutcome.badRequest, crs)

/-! ## Change-request approval (`POST /change-requests/:id/approve`, admin routes) -/

/-- Joint state touched by the approval transaction. -/
structure ApproveState where
  sessions : List Session
  changeRequests : List ChangeRequest
deriving DecidableEq, Repr

/-- Outcome of `POST /change-requests/:id/approve` (404 / 409 / 409 / 400 / 200). -/
inductive ApproveOutcome where
  | notFound
  | requestNotPending
  | sessionNotSchedulable
  | missingProposedFields
  | approved
deriving DecidableEq, Repr

/-- The session mutation performed inside the approval transaction:
`CANCEL` sets status `CANCELLED`; `RESCHEDULE` overwrites start/end/timezone
with the proposed values (status untouched). -/
def applyCrToSession (cr : ChangeRequest) (s : Session) : Session :=
  match cr.type with
  | ChangeRequestType.CANCEL => { s with status := SessionStatus.CANCELLED }
  | ChangeRequestType.RESCHEDULE =>
      { s with startAtUtc := cr.proposedStartAtUtc.getD s.startAtUtc,
               endAtUtc := cr.proposedEndAtUtc.getD s.endAtUtc,
               classTimeZone := cr.proposedTimeZone.getD s.classTimeZone }

/-- Both effects of the `prisma.$transaction` block of the approve route:
flip the change request to `APPROVED` recording the decider, and mutate the
referenced session. -/
def applyApproveEffects (st : ApproveState) (cr : ChangeRequest) (actorId : Nat) : ApproveState :=
  { sessions := st.sessions.map (fun s =>
      if s.id == cr.sessionId then applyCrToSession cr s else s),
    changeRequests := st.changeRequests.map (fun c =>
      if c.id == cr.id then
        { c with status := ChangeRequestStatus.APPROVED, decidedByAdminId := some actorId }
      else c) }

/-- The `POST /change-requests/:id/approve` handler: guards, then the atomic
transaction. Every failure path returns the state unchanged. -/
def approveChangeRequest (st : ApproveState) (crId actorId : Nat) :
    ApproveOutcome × ApproveState :=
  match st.changeRequests.find? (fun c => c.id == crId) with
  | none => (ApproveOutcome.notFound, st)
  | some cr =>
    if cr.status ≠ ChangeRequestStatus.PENDING then (ApproveOutcome.requestNotPending, st)
    else
      match st.sessions.find? (fun s => s.id == cr.sessionId) with
      | none => (ApproveOutcome.notFound, st)
      | some sess =>
        if sess.status ≠ SessionStatus.SCHEDULED then (ApproveOutcome.sessionNotSchedulable, st)
        else
          if cr.type = ChangeRequestType.RESCHEDULE ∧
              (cr.proposedStartAtUtc = none ∨ cr.proposedEndAtUtc = none ∨
               cr.proposedTimeZone = none) then
            (ApproveOutcome.missingProposedFields, st)
          else (ApproveOutcome.approved, applyApproveEffects st cr actorId)

/-! ## Session-completion job (`completeEndedSessions`) -/

/-- Joint state touched by the completion job. -/
structure JobDb where
  sessions : List Session
  ledger : List HourLedgerEntry
deriving DecidableEq, Repr

/-- The selection condition of the job's initial query:
status `SCHEDULED` and `endAtUtc <= now`. -/
def sessionEligible (now : Int) (s : Session) : Bool :=
  s.status == SessionStatus.SCHEDULED && decide (s.endAtUtc ≤ now)

/-- Ordering used by the job's `orderBy: endAtUtc asc`. -/
def byEndAt (a b : Session) : Prop := a.endAtUtc ≤ b.endAtUtc

instance : DecidableRel byEndAt := fun a b => inferInstanceAs (Decidable (a.endAtUtc ≤ b.endAtUtc))

/-- The initial query of the job: eligible sessions, ordered by `endAtUtc`
ascending, limited to `batchSize`. -/
def selectBatch (sessions : List Session) (now : Int) (batchSize : Nat) : List Session :=
  (List.insertionSort byEndAt (sessions.filter (sessionEligible now))).take batchSize

/-- The conditional `updateMany` of the per-session transaction: set status
`COMPLETED` only on the row with this id that is still `SCHEDULED`. -/
def flipCompleted (sid : Nat) (s : Session) : Session :=
  if s.id == sid && s.status == SessionStatus.SCHEDULED then
    { s with status := SessionStatus.COMPLETED }
  else s

/-- The ledger row inserted by the job's upsert for a session. -/
def consumeEntry (s : Session) : HourLedgerEntry :=
  { studentId := s.studentId, teacherId := some s.teacherId,
    deltaUnits := -s.consumesUnits, reason := HourLedgerReason.SESSION_CONSUME,
    sessionId := some s.id }

/-- One per-session transaction of the job: re-read the row, skip when missing,
ended-in-the-future or cancelled, otherwise conditionally complete it and
upsert the consumption entry keyed by `sessionId` (insert only when absent). -/
def processOne (now : Int) (db : JobDb) (sid : Nat) : JobDb :=
  match db.sessions.find? (fun s => s.id == sid) with
  | none => db
  | some cur =>
    if now < cur.endAtUtc then db
    else if cur.status = SessionStatus.CANCELLED then db
    else
      { sessions := db.sessions.map (flipCompleted sid),
        ledger :=
          if db.ledger.any (fun e => e.sessionId == some sid) then db.ledger
          else db.ledger ++ [consumeEntry cur] }

/-- The `completeEndedSessions` job with an injected reference instant `now`
and batch size: select the batch, then run the per-session transactions in
order. -/
def completeEndedSessions (db : JobDb) (now : Int) (batchSize : Nat) : JobDb :=
  ((selectBatch db.sessions now batchSize).map (fun s => s.id)).foldl (processOne now) db

/-! ## Zoned time conversion (`zonedTimeToUtc`, timezone library) -/

/-- The correction algorithm of `zonedTimeToUtc`. `utcGuess` is
`Date.UTC(year, month-1, day, hour, minute, second, ms)` applied to the wall
clock tuple, and `offsetAtMs` is `getTimeZoneOffsetMs(·, timeZone)`, the zone's
UTC offset at an instant; both are environment-supplied and kept abstract.
The function reads the offset at the guess, corrects once, re-reads the offset
at the corrected instant, and returns the corrected instant when the offsets
agree; otherwise it returns the guess minus the re-read offset. -/
def zonedTimeToUtcMs (offsetAtMs : Int → Int) (utcGuess : Int) : Int :=
  let offset1 := offsetAtMs utcGuess
  let utc1 := utcGuess - offset1
  let offset2 := offsetAtMs utc1
  if offset2 = offset1 then utc1 else utcGuess - offset2

/-! ## Payroll (`GET /payroll`, teacher routes) -/

/-- Milliseconds per hour (`MS_PER_HOUR`). -/
def msPerHour : Int := 3600000

/-- Half an hour in milliseconds (`denominator / 2n` of `prorateCents`). -/
def halfHourMs : Int := 1800000

/-- The `prorateCents` helper: zero for non-positive durations, otherwise
round-half-up proration computed with exact integer arithmetic
(`BigInt` division truncates toward zero, i.e. `Int.tdiv`). -/
def prorateCents (durationMs hourlyRateCents : Int) : Int :=
  if durationMs ≤ 0 then 0
  else Int.tdiv (durationMs * hourlyRateCents + halfHourMs) msPerHour

/-- A finite nonnegative IEEE-754 binary64 value, as mantissa times a power
of two. Values produced by the operations below are normalized: the mantissa
is 0 or lies in `[2^52, 2^53)`, so structural equality is value equality. -/
structure F64 where
  m : Nat
  exp : Int
deriving DecidableEq, Repr

/-- The binary64 zero. -/
def F64.zero : F64 := { m := 0, exp := 0 }

/-- The exact rational value of a binary64 datum. -/
def F64.toRat (x : F64) : ℚ :=
  if 0 ≤ x.exp then (x.m : ℚ) * 2 ^ x.exp.toNat else (x.m : ℚ) / 2 ^ (-x.exp).toNat

/-- Number of binary digits of `n`, with explicit fuel so that it computes by
structural recursion (fuel 4200 covers the whole binary64 exponent range). -/
def bitLen : Nat → Nat → Nat
  | 0, _ => 0
  | fuel + 1, n => if n = 0 then 0 else bitLen fuel (n / 2) + 1

/-- Rounds the quotient `n / d` to the nearest integer, ties to even — the
IEEE-754 default rounding of a mantissa. -/
def roundQuot (n d : Nat) : Nat :=
  let q := n / d
  let r := n % d
  if 2 * r < d then q
  else if d < 2 * r then q + 1
  else if q % 2 = 0 then q else q + 1

/-- Rounds the exact value `n * 2^e` to binary64: keep it exact when it fits
in 53 bits, otherwise round the mantissa to nearest, ties to even. -/
def roundToF64 (n : Nat) (e : Int) : F64 :=
  if n = 0 then F64.zero
  else
    let len := bitLen 4200 n
    if len ≤ 53 then { m := n * 2 ^ (53 - len), exp := e - (53 - len) }
    else
      let m := roundQuot n (2 ^ (len - 53))
      if m = 2 ^ 53 then { m := 2 ^ 52, exp := e + (len - 53) + 1 }
      else { m := m, exp := e + (len - 53) }

/-- Binary64 addition of nonnegative values: align the exponents, add the
mantissas exactly, round once — the IEEE-754 correctly rounded sum. -/
def floatAdd (x y : F64) : F64 :=
  if x.m = 0 then y
  else if y.m = 0 then x
  else
    let e := min x.exp y.exp
    roundToF64 (x.m * 2 ^ (x.exp - e).toNat + y.m * 2 ^ (y.exp - e).toNat) e

/-- Scales the fraction `num/den` by powers of two until it lies in
`[2^52, 2^53)`, tracking the exponent; fuel keeps the recursion structural. -/
def normFrac : Nat → Nat → Int → Nat → Nat × Nat × Int
  | num, den, e, 0 => (num, den, e)
  | num, den, e, fuel + 1 =>
    if num < den * 2 ^ 52 then normFrac (num * 2) den (e - 1) fuel
    else if den * 2 ^ 53 ≤ num then normFrac num (den * 2) (e + 1) fuel
    else (num, den, e)

/-- Binary64 division of two nonnegative integers (the loop's
`durationMs / MS_PER_HOUR`): the IEEE-754 correctly rounded quotient. -/
def floatOfRatio (a b : Nat) : F64 :=
  if a = 0 ∨ b = 0 then F64.zero
  else
    let t := normFrac a b 0 4200
    let m := roundQuot t.1 t.2.1
    if m = 2 ^ 53 then { m := 2 ^ 52, exp := t.2.2 + 1 }
    else { m := m, exp := t.2.2 }

/-- Code-point comparison of character lists (the comparison underlying
`localeCompare` for the ASCII keys sorted here), computed structurally. -/
def charsLe : List Char → List Char → Bool
  | [], _ => true
  | _ :: _, [] => false
  | a :: as, b :: bs =>
    if a.val.toNat < b.val.toNat then true
    else if b.val.toNat < a.val.toNat then false
    else charsLe as bs

/-- Code-point comparison of strings. -/
def strLe (a b : String) : Bool := charsLe a.data b.data

/-- A row of the payroll query result (completed sessions of the teacher in
the requested week, with the joined student display name). -/
structure PayrollRow where
  studentId : Nat
  studentName : Option String
  startAtUtc : Int
  endAtUtc : Int
  teacherHourlyWageCentsSnapshot : Int
  currencySnapshot : Currency
deriving DecidableEq, Repr

/-- Accumulated totals for one currency (`totalCents`, `totalHours`,
`sessionsCount`); the hour total is a binary64 value, as in the source. -/
structure CurrencyTotals where
  currency : Currency
  totalCents : Int
  totalHours : F64
  sessionsCount : Nat
deriving DecidableEq, Repr

/-- One `byStudent` entry: the student and their per-currency totals. -/
structure StudentTotals where
  studentId : Nat
  studentName : Option String
  totals : List CurrencyTotals
deriving DecidableEq, Repr

/-- The `totalsByCurrency.get(currency) ?? zero / mutate / set` step of the
loop, on an insertion-ordered association list (JavaScript `Map` semantics:
an existing key is updated in place, a new key is appended). -/
def bumpCurrency (c : Currency) (cents : Int) (hours : F64) :
    List CurrencyTotals → List CurrencyTotals
  | [] => [{ currency := c, totalCents := cents, totalHours := floatAdd F64.zero hours,
             sessionsCount := 1 }]
  | t :: ts =>
    if t.currency = c then
      { t with totalCents := t.totalCents + cents,
               totalHours := floatAdd t.totalHours hours,
               sessionsCount := t.sessionsCount + 1 } :: ts
    else t :: bumpCurrency c cents hours ts

/-- The `totalsByStudent` step of the loop: update the student's nested
per-currency map (creating the entry, with the row's display name, when the
student is new). -/
def bumpStudent (row : PayrollRow) (cents : Int) (hours : F64) :
    List StudentTotals → List StudentTotals
  | [] => [{ studentId := row.studentId, studentName := row.studentName,
             totals := bumpCurrency row.currencySnapshot cents hours [] }]
  | e :: es =>
    if e.studentId = row.studentId then
      { e with totals := bumpCurrency row.currencySnapshot cents hours e.totals } :: es
    else e :: bumpStudent row cents hours es

/-- One iteration of the payroll accumulation loop: skip when
`durationMs <= 0`, otherwise prorate and add the session to both maps. -/
def payrollStep (acc : List CurrencyTotals × List StudentTotals) (row : PayrollRow) :
    List CurrencyTotals × List StudentTotals :=
  let durationMs := row.endAtUtc - row.startAtUtc
  if durationMs ≤ 0 then acc
  else
    let cents := prorateCents durationMs row.teacherHourlyWageCentsSnapshot
    let hours : F64 := floatOfRatio durationMs.toNat msPerHour.toNat
    (bumpCurrency row.currencySnapshot cents hours acc.1,
     bumpStudent row cents hours acc.2)

/-- The whole accumulation loop over the selected rows. -/
def payrollAccumulate (rows : List PayrollRow) : List CurrencyTotals × List StudentTotals :=
  rows.foldl payrollStep ([], [])

/-- Comparison used to sort currency totals (`localeCompare` on the currency
code, ascending). -/
def byCurrencyCode (a b : CurrencyTotals) : Prop :=
  strLe (currencyCode a.currency) (currencyCode b.currency) = true

instance : DecidableRel byCurrencyCode := fun a b =>
  inferInstanceAs (Decidable (strLe (currencyCode a.currency) (currencyCode b.currency) = true))

/-- Comparison used to sort the `byStudent` list (`localeCompare` on the
display name, falling back to the student id, ascending). -/
def byStudentName (a b : StudentTotals) : Prop :=
  strLe (a.studentName.getD (toString a.studentId))
    (b.studentName.getD (toString b.studentId)) = true

instance : DecidableRel byStudentName := fun a b =>
  inferInstanceAs
    (Decidable (strLe (a.studentName.getD (toString a.studentId))
      (b.studentName.getD (toString b.studentId)) = true))

/-- The `totals` list of the response: currency totals sorted by code. -/
def payrollTotals (rows : List PayrollRow) : List CurrencyTotals :=
  List.insertionSort byCurrencyCode (payrollAccumulate rows).1

/-- The `byStudent` list of the response: each student's totals sorted by
currency code, the students sorted by display name (falling back to id). -/
def payrollByStudent (rows : List PayrollRow) : List StudentTotals :=
  List.insertionSort byStudentName
    (((payrollAccumulate rows).2).map (fun e =>
      { e with totals := List.insertionSort byCurrencyCode e.totals }))

/-- The all-zero totals entry for a currency. -/
def zeroTotals (c : Currency) : CurrencyTotals :=
  { currency := c, totalCents := 0, totalHours := F64.zero, sessionsCount := 0 }

/-- The entry recorded for currency `c` (all-zero when the currency is absent). -/
def lookupTotals (m : List CurrencyTotals) (c : Currency) : CurrencyTotals :=
  (m.find? (fun t => t.currency == c)).getD (zeroTotals c)

/-- Cents recorded for currency `c` (0 when the currency has no entry). -/
def centsFor (m : List CurrencyTotals) (c : Currency) : Int :=
  (lookupTotals m c).totalCents

/-- Hours recorded for currency `c` (binary64 zero when the currency has no
entry). -/
def hoursFor (m : List CurrencyTotals) (c : Currency) : F64 :=
  (lookupTotals m c).totalHours

/-- Session count recorded for currency `c` (0 when the currency has no entry). -/
def countFor (m : List CurrencyTotals) (c : Currency) : Nat :=
  (lookupTotals m c).sessionsCount

/-- Consistency between the top-level per-currency totals and the per-student
breakdown: for every currency, cents and session count agree with the sums
over the student entries (the binary64 hour totals are not summed exactly,
see the rounding counterexample below). -/
def totalsConsistent (top : List CurrencyTotals) (students : List StudentTotals) : Prop :=
  ∀ c : Currency,
    centsFor top c = (students.map (fun e => centsFor e.totals c)).sum ∧
    countFor top c = (students.map (fun e => countFor e.totals c)).sum

/-! ## Concrete rows used to evaluate the model -/

/-- A rate row used by the concrete scenarios. -/
def sampleRate : RateSnapshot := { hourlyRateCents := 10000, currency := Currency.AUD }

/-- An already `COMPLETED` session of teacher 7 occupying `[0, 100)`. -/
def completedOverlapSession : Session :=
  { id := 11, teacherId := 7, studentId := 3, subject := 0, startAtUtc := 0, endAtUtc := 100,
    classTimeZone := "UTC", consumesUnits := 1, status := SessionStatus.COMPLETED,
    rateCentsSnapshot := 10000, currencySnapshot := Currency.AUD }

/-- A create payload for teacher 7 occupying the same `[0, 100)` slot. -/
def overlappingPayload : CreateSessionPayload :=
  { teacherId := 7, studentId := 3, subject := 0, startAtUtc := 0, endAtUtc := 100,
    classTimeZone := "UTC", consumesUnits := 1 }

/-- A `SCHEDULED` session of teacher 2 / student 3 starting at instant 200000000. -/
def scheduledSession : Session :=
  { id := 1, teacherId := 2, studentId := 3, subject := 0, startAtUtc := 200000000,
    endAtUtc := 203600000, classTimeZone := "UTC", consumesUnits := 1,
    status := SessionStatus.SCHEDULED, rateCentsSnapshot := 10000,
    currencySnapshot := Currency.AUD }

/-- A create payload for teacher 2 occupying the same slot as `scheduledSession`. -/
def scheduledOverlapPayload : CreateSessionPayload :=
  { teacherId := 2, studentId := 3, subject := 0, startAtUtc := 200000000,
    endAtUtc := 203600000, classTimeZone := "UTC", consumesUnits := 1 }

/-- A `SCHEDULED` one-hour session `[0, 3600000)` targeted by the edit scenario. -/
def editTarget : Session :=
  { id := 21, teacherId := 2, studentId := 3, subject := 0, startAtUtc := 0,
    endAtUtc := 3600000, classTimeZone := "UTC", consumesUnits := 1,
    status := SessionStatus.SCHEDULED, rateCentsSnapshot := 10000,
    currencySnapshot := Currency.AUD }

/-- An edit payload supplying only `startAtUtc`, two hours after `editTarget` ends. -/
def startOnlyBody : UpdateSessionBody :=
  { subject := none, startAtUtc := some 7200000, endAtUtc := none, classTimeZone := none,
    consumesUnits := none, status := none }

/-- An empty rate table. -/
def noRates : Nat → Nat → Nat → Option RateSnapshot := fun _ _ _ => none

/-- A create payload whose interval is empty (`endAtUtc = startAtUtc`). -/
def degeneratePayload : CreateSessionPayload :=
  { teacherId := 2, studentId := 3, subject := 0, startAtUtc := 1000, endAtUtc := 1000,
    classTimeZone := "UTC", consumesUnits := 1 }

/-- A `SCHEDULED` session targeted by a reschedule approval. -/
def rescheduleTarget : Session :=
  { id := 31, teacherId := 2, studentId := 3, subject := 0, startAtUtc := 0,
    endAtUtc := 3600000, classTimeZone := "UTC", consumesUnits := 1,
    status := SessionStatus.SCHEDULED, rateCentsSnapshot := 10000,
    currencySnapshot := Currency.AUD }

/-- A `PENDING` `RESCHEDULE` change request against `rescheduleTarget`. -/
def rescheduleRequest : ChangeRequest :=
  { id := 41, sessionId := 31, type := ChangeRequestType.RESCHEDULE,
    status := ChangeRequestStatus.PENDING, proposedStartAtUtc := some 7200000,
    proposedEndAtUtc := some 10800000, proposedTimeZone := some "Australia/Sydney",
    requestedByUserId := 3, decidedByAdminId := none }

/-- State holding `rescheduleTarget` and `rescheduleRequest`. -/
def approveSample : ApproveState :=
  { sessions := [rescheduleTarget], changeRequests := [rescheduleRequest] }

/-- State with no sessions and no change requests. -/
def emptyApproveState : ApproveState := { sessions := [], changeRequests := [] }

/-- A `PENDING` `CANCEL` change request against `scheduledSession`. -/
def pendingRequest : ChangeRequest :=
  { id := 9, sessionId := 1, type := ChangeRequestType.CANCEL,
    status := ChangeRequestStatus.PENDING, proposedStartAtUtc := none,
    proposedEndAtUtc := none, proposedTimeZone := none,
    requestedByUserId := 3, decidedByAdminId := none }

/-- A `SCHEDULED` session that ended at instant 10. -/
def jobSessionA : Session :=
  { id := 51, teacherId := 2, studentId := 3, subject := 0, startAtUtc := 0, endAtUtc := 10,
    classTimeZone := "UTC", consumesUnits := 1, status := SessionStatus.SCHEDULED,
    rateCentsSnapshot := 10000, currencySnapshot := Currency.AUD }

/-- A `SCHEDULED` session that ended at instant 20. -/
def jobSessionB : Session :=
  { id := 52, teacherId := 2, studentId := 3, subject := 0, startAtUtc := 0, endAtUtc := 20,
    classTimeZone := "UTC", consumesUnits := 1, status := SessionStatus.SCHEDULED,
    rateCentsSnapshot := 10000, currencySnapshot := Currency.AUD }

/-- Job state with two eligible sessions and an empty ledger. -/
def twoEligibleDb : JobDb := { sessions := [jobSessionA, jobSessionB], ledger := [] }

/-- Job state with one eligible session and an empty ledger. -/
def singleEligibleDb : JobDb := { sessions := [jobSessionA], ledger := [] }

/-- A zone-offset function that is unstable around the epoch: one hour ahead
at nonnegative instants, zero before. -/
def unstableOffset (t : Int) : Int := if 0 ≤ t then 3600000 else 0

/-- A 12-minute AUD session of student 1 ("Amy"). -/
def hoursRoundingRowA1 : PayrollRow :=
  { studentId := 1, studentName := some "Amy", startAtUtc := 0, endAtUtc := 720000,
    teacherHourlyWageCentsSnapshot := 10000, currencySnapshot := Currency.AUD }

/-- A 6-minute AUD session of student 2 ("Ben"). -/
def hoursRoundingRowB : PayrollRow :=
  { studentId := 2, studentName := some "Ben", startAtUtc := 0, endAtUtc := 360000,
    teacherHourlyWageCentsSnapshot := 10000, currencySnapshot := Currency.AUD }

/-- An 18-minute AUD session of student 1 ("Amy"). -/
def hoursRoundingRowA2 : PayrollRow :=
  { studentId := 1, studentName := some "Amy", startAtUtc := 0, endAtUtc := 1080000,
    teacherHourlyWageCentsSnapshot := 10000, currencySnapshot := Currency.AUD }

/-- Payroll rows whose hour fractions (0.2, 0.1, 0.3) make the binary64
accumulation order-sensitive: the top-level map adds them in row order while
the per-student map groups student 1's two rows together. -/
def hoursRoundingRows : List PayrollRow :=
  [hoursRoundingRowA1, hoursRoundingRowB, hoursRoundingRowA2]

/-! ## Helper lemmas -/

/-- Searching a mapped list for a predicate the map preserves finds the image
of the original hit. -/
theorem find?_map_pred_inv {α : Type} (p : α → Bool) (f : α → α)
    (hf : ∀ a, p (f a) = p a) (l : List α) :
    (l.map f).find? p = (l.find? p).map f := by
  induction l with
  | nil => rfl
  | cons x xs ih =>
    cases hx : p x with
    | true =>
      rw [List.map_cons, List.find?_cons_of_pos _ (by rw [hf x]; exact hx),
        List.find?_cons_of_pos _ hx]
      rfl
    | false =>
      rw [List.map_cons, List.find?_cons_of_neg _ (by rw [hf x, hx]; exact Bool.false_ne_true),
        List.find?_cons_of_neg _ (by rw [hx]; exact Bool.false_ne_true), ih]

/-- In a list with distinct keys, searching for a member's key finds exactly
that member. -/
theorem find?_eq_some_of_nodup_map {α κ : Type} [DecidableEq κ] (f : α → κ) {l : List α}
    (hnd : (l.map f).Nodup) {a : α} (ha : a ∈ l) :
    l.find? (fun x => f x == f a) = some a := by
  induction l with
  | nil => cases ha
  | cons x xs ih =>
    rw [List.map_cons, List.nodup_cons] at hnd
    by_cases hx : f x = f a
    · rcases List.mem_cons.mp ha with rfl | ha₂
      · exact List.find?_cons_of_pos _ (by simp)
      · exact absurd (hx ▸ List.mem_map_of_mem f ha₂) hnd.1
    · rcases List.mem_cons.mp ha with rfl | ha₂
      · exact absurd rfl hx
      · rw [List.find?_cons_of_neg _ (by simpa using hx)]
        exact ih hnd.2 ha₂

/-! ## Claim theorems -/

/-- C7: for every completed session selected by the payroll aggregator (positive
duration, nonnegative wage snapshot), the prorated wage in cents equals
`floor((durationMs * wageCents + halfHourMs) / hourMs)` with `hourMs = 3600000`
and `halfHourMs = hourMs / 2`, computed with exact integer arithmetic, and this
equals round-half-up of the exact rational `durationMs * wageCents / hourMs`;
a 1.5-hour session at 10000 cents/hour contributes exactly 15000 cents. -/
theorem prorateCents_round_half_up (d w : Int) (hd : 0 < d) (hw : 0 ≤ w) :
    prorateCents d w = ⌊((d : ℚ) * (w : ℚ) + 1800000) / 3600000⌋ ∧
    prorateCents d w = ⌊(d : ℚ) * (w : ℚ) / 3600000 + 1 / 2⌋ ∧
    prorateCents 5400000 10000 = 15000 := by
  have hdle : ¬ d ≤ 0 := not_le.mpr hd
  have hnum : (0 : ℤ) ≤ d * w + halfHourMs := by
    have h1 : (0 : ℤ) ≤ d * w := mul_nonneg hd.le hw
    have h2 : (0 : ℤ) ≤ halfHourMs := by norm_num [halfHourMs]
    exact add_nonneg h1 h2
  have hediv : prorateCents d w = (d * w + halfHourMs) / msPerHour := by
    rw [prorateCents, if_neg hdle, Int.tdiv_eq_ediv hnum (by norm_num [msPerHour])]
  have hfloor : ⌊(((d * w + halfHourMs : ℤ) : ℚ)) / (((3600000 : ℕ) : ℤ) : ℚ)⌋ =
      (d * w + halfHourMs) / ((3600000 : ℕ) : ℤ) := by
    exact_mod_cast Rat.floor_intCast_div_natCast (d * w + halfHourMs) 3600000
  have hcast : (((d * w + halfHourMs : ℤ) : ℚ)) / (((3600000 : ℕ) : ℤ) : ℚ) =
      ((d : ℚ) * (w : ℚ) + 1800000) / 3600000 := by
    rw [halfHourMs]; push_cast; ring_nf
  have hmain : prorateCents d w = ⌊((d : ℚ) * (w : ℚ) + 1800000) / 3600000⌋ := by
    rw [hediv, msPerHour, ← hcast, hfloor, halfHourMs]
    norm_num
  refine ⟨hmain, ?_, by decide⟩
  rw [hmain]
  congr 1
  field_simp
  ring

/-- Witness for C7: the theorem instantiated at the 1.5-hour, 10000 cents/hour
scenario. -/
theorem prorateCents_round_half_up_witness :
    prorateCents 5400000 10000 = ⌊((5400000 : ℚ) * (10000 : ℚ) + 1800000) / 3600000⌋ ∧
    prorateCents 5400000 10000 = ⌊(5400000 : ℚ) * (10000 : ℚ) / 3600000 + 1 / 2⌋ ∧
    prorateCents 5400000 10000 = 15000 :=
  prorateCents_round_half_up 5400000 10000 (by norm_num) (by norm_num)

/-- C8 counterexample: with an offset function that is unstable after the single
correction pass, `zonedTimeToUtc` does not accept the corrected instant
(guess minus the first offset); it returns the guess minus the re-read offset
instead. -/
theorem zonedTimeToUtc_unstable_not_corrected_value :
    unstableOffset (0 - unstableOffset 0) ≠ unstableOffset 0 ∧
    zonedTimeToUtcMs unstableOffset 0 ≠ 0 - unstableOffset 0 ∧
    zonedTimeToUtcMs unstableOffset 0 = 0 - unstableOffset (0 - unstableOffset 0) := by
  decide

/-- C8 (amended): `zonedTimeToUtc` computes an initial UTC guess, reads the
zone's offset at the guess, corrects once (guess minus that offset) and
re-checks the offset at the corrected instant; when the re-read offset equals
the first it returns the corrected instant, and when the offset is still
unstable it returns the guess minus the re-read offset, with no further
offset lookup. -/
theorem zonedTimeToUtcMs_correction_passes (offsetAtMs : Int → Int) (g : Int) :
    (offsetAtMs (g - offsetAtMs g) = offsetAtMs g →
      zonedTimeToUtcMs offsetAtMs g = g - offsetAtMs g) ∧
    (offsetAtMs (g - offsetAtMs g) ≠ offsetAtMs g →
      zonedTimeToUtcMs offsetAtMs g = g - offsetAtMs (g - offsetAtMs g)) := by
  constructor
  · intro h
    simp [zonedTimeToUtcMs, h]
  · intro h
    simp [zonedTimeToUtcMs, h]

/-- Witness for C8: the amended theorem applied to the unstable offset
function at guess 0. -/
theorem zonedTimeToUtcMs_correction_witness :
    zonedTimeToUtcMs unstableOffset 0 = 0 - unstableOffset (0 - unstableOffset 0) :=
  (zonedTimeToUtcMs_correction_passes unstableOffset 0).2 (by decide)

/-- C5: change-request approval is atomic. Every non-approved outcome (not
found, request not pending, session not schedulable, missing proposed fields)
returns the state unchanged, and the approved outcome returns exactly the
state with both effects applied — the change request flipped to `APPROVED`
with the decider recorded and the session mutation applied together. -/
theorem approveChangeRequest_atomic (st : ApproveState) (crId actorId : Nat) :
    ((approveChangeRequest st crId actorId).1 ≠ ApproveOutcome.approved →
      (approveChangeRequest st crId actorId).2 = st) ∧
    ((approveChangeRequest st crId actorId).1 = ApproveOutcome.approved →
      ∃ cr, st.changeRequests.find? (fun c => c.id == crId) = some cr ∧
        cr.status = ChangeRequestStatus.PENDING ∧
        (approveChangeRequest st crId actorId).2 = applyApproveEffects st cr actorId) := by
  unfold approveChangeRequest
  cases hfc : st.changeRequests.find? (fun c => c.id == crId) with
  | none => exact ⟨fun _ => rfl, fun h => by cases h⟩
  | some cr =>
    dsimp only
    by_cases hp : cr.status = ChangeRequestStatus.PENDING
    · rw [if_neg (show ¬cr.status ≠ ChangeRequestStatus.PENDING from fun h => h hp)]
      cases hfs : st.sessions.find? (fun s => s.id == cr.sessionId) with
      | none => exact ⟨fun _ => rfl, fun h => by cases h⟩
      | some sess =>
        dsimp only
        by_cases hs : sess.status = SessionStatus.SCHEDULED
        · rw [if_neg (show ¬sess.status ≠ SessionStatus.SCHEDULED from fun h => h hs)]
          by_cases hm : cr.type = ChangeRequestType.RESCHEDULE ∧
              (cr.proposedStartAtUtc = none ∨ cr.proposedEndAtUtc = none ∨
               cr.proposedTimeZone = none)
          · rw [if_pos hm]
            exact ⟨fun _ => rfl, fun h => by cases h⟩
          · rw [if_neg hm]
            exact ⟨fun h => absurd rfl h, fun _ => ⟨cr, rfl, hp, rfl⟩⟩
        · rw [if_pos hs]
          exact ⟨fun _ => rfl, fun h => by cases h⟩
    · rw [if_pos hp]
      exact ⟨fun _ => rfl, fun h => by cases h⟩

/-- Witness for C5: approving a nonexistent change request leaves the state
unchanged. -/
theorem approveChangeRequest_atomic_witness :
    (approveChangeRequest emptyApproveState 1 2).2 = emptyApproveState :=
  (approveChangeRequest_atomic emptyApproveState 1 2).1 (by decide)

/-- The conflict predicate of session creation, spelled out propositionally:
same teacher, status `SCHEDULED`, and half-open interval overlap. -/
theorem sessionOverlapsNew_eq_true_iff (t : Nat) (a b : Int) (s : Session) :
    sessionOverlapsNew t a b s = true ↔
      (s.teacherId = t ∧ s.status = SessionStatus.SCHEDULED ∧
        s.startAtUtc < b ∧ s.endAtUtc > a) := by
  simp [sessionOverlapsNew, and_assoc]

/-- C1 counterexample: an overlapping session of the same teacher whose status
is `COMPLETED` (hence ≠ `CANCELLED`) does not trigger the conflict branch —
the create succeeds, because the code filters on status = `SCHEDULED` only. -/
theorem createSession_completed_overlap_ignored :
    completedOverlapSession.teacherId = overlappingPayload.teacherId ∧
    completedOverlapSession.status ≠ SessionStatus.CANCELLED ∧
    completedOverlapSession.startAtUtc < overlappingPayload.endAtUtc ∧
    completedOverlapSession.endAtUtc > overlappingPayload.startAtUtc ∧
    overlappingPayload.startAtUtc < overlappingPayload.endAtUtc ∧
    (createSession [completedOverlapSession] overlappingPayload sampleRate 12).1 =
      CreateSessionOutcome.created 12 := by
  decide

/-- C1 (amended): a create that passes interval validation fails with a
conflict naming a colliding session id, and performs no write, exactly when
some existing session of the same teacher with status `SCHEDULED` overlaps
the new half-open interval; a back-to-back session (existing end = new start)
never matches the conflict predicate, and when nothing overlaps the create
succeeds. -/
theorem createSession_conflict_characterization
    (db : List Session) (p : CreateSessionPayload) (rate : RateSnapshot) (newId : Nat)
    (hvalid : p.startAtUtc < p.endAtUtc) :
    ((∃ cid, (createSession db p rate newId).1 = CreateSessionOutcome.conflict cid) ↔
      ∃ s ∈ db, s.teacherId = p.teacherId ∧ s.status = SessionStatus.SCHEDULED ∧
        s.startAtUtc < p.endAtUtc ∧ s.endAtUtc > p.startAtUtc) ∧
    (∀ cid, (createSession db p rate newId).1 = CreateSessionOutcome.conflict cid →
      (createSession db p rate newId).2 = db ∧
      ∃ s ∈ db, s.id = cid ∧ s.teacherId = p.teacherId ∧
        s.status = SessionStatus.SCHEDULED ∧
        s.startAtUtc < p.endAtUtc ∧ s.endAtUtc > p.startAtUtc) ∧
    (∀ s : Session, s.endAtUtc = p.startAtUtc →
      sessionOverlapsNew p.teacherId p.startAtUtc p.endAtUtc s = false) ∧
    ((∀ s ∈ db, ¬(s.teacherId = p.teacherId ∧ s.status = SessionStatus.SCHEDULED ∧
        s.startAtUtc < p.endAtUtc ∧ s.endAtUtc > p.startAtUtc)) →
      (createSession db p rate newId).1 = CreateSessionOutcome.created newId) := by
  have hv : createBodyValid p = true := by
    simp [createBodyValid, hvalid]
  have hbb : ∀ s : Session, s.endAtUtc = p.startAtUtc →
      sessionOverlapsNew p.teacherId p.startAtUtc p.endAtUtc s = false := by
    intro s hend
    simp [sessionOverlapsNew, hend]
  unfold createSession
  rw [hv, if_pos rfl]
  cases hconf : db.find? (sessionOverlapsNew p.teacherId p.startAtUtc p.endAtUtc) with
  | some s =>
    dsimp only
    have hs := (sessionOverlapsNew_eq_true_iff _ _ _ s).mp (List.find?_some hconf)
    have hmem := List.mem_of_find?_eq_some hconf
    refine ⟨⟨fun _ => ⟨s, hmem, hs⟩, fun _ => ⟨s.id, rfl⟩⟩, ?_, hbb, ?_⟩
    · intro cid hcid
      have : s.id = cid := by
        cases hcid
        rfl
      exact ⟨rfl, s, hmem, this, hs⟩
    · intro hall
      exact absurd hs (hall s hmem)
  | none =>
    dsimp only
    have hnone := List.find?_eq_none.mp hconf
    refine ⟨⟨fun h => ?_, fun h => ?_⟩, fun cid h => absurd h (by simp), hbb, fun _ => rfl⟩
    · rcases h with ⟨cid, h⟩
      cases h
    · rcases h with ⟨s, hmem, hs⟩
      exact absurd ((sessionOverlapsNew_eq_true_iff _ _ _ s).mpr hs) (hnone s hmem)

/-- Witness for C1: an overlapping `SCHEDULED` session of the same teacher
does produce a conflict outcome. -/
theorem createSession_conflict_witness :
    ∃ cid, (createSession [scheduledSession] scheduledOverlapPayload sampleRate 2).1 =
      CreateSessionOutcome.conflict cid :=
  ((createSession_conflict_characterization [scheduledSession] scheduledOverlapPayload
      sampleRate 2 (by decide)).1).mpr ⟨scheduledSession, by decide, by decide⟩

/-- C3 (evaluating the code at the failing input): create rejects an empty
interval, but an edit that supplies only `startAtUtc` passes the body
validation (which compares the bounds only when both are supplied) and
persists a session whose `endAtUtc` is not after `startAtUtc`, violating the
interval invariant. -/
theorem updateSession_single_bound_violates_invariant :
    createBodyValid degeneratePayload = false ∧
    (createSession [] degeneratePayload sampleRate 99).1 = CreateSessionOutcome.badRequest ∧
    updateBodyValid startOnlyBody = true ∧
    (updateSession [editTarget] 21 startOnlyBody noRates).1 = UpdateSessionOutcome.ok ∧
    (updateSession [editTarget] 21 startOnlyBody noRates).2 =
      [{ editTarget with startAtUtc := 7200000 }] ∧
    (∀ s ∈ (updateSession [editTarget] 21 startOnlyBody noRates).2,
      s.endAtUtc ≤ s.startAtUtc) := by
  decide

/-- The session mutation of an approval preserves the session id. -/
theorem applyCrToSession_id (cr : ChangeRequest) (s : Session) :
    (applyCrToSession cr s).id = s.id := by
  cases h : cr.type <;> simp [applyCrToSession, h]

/-- C4: approving a `PENDING` `RESCHEDULE` change request against a
`SCHEDULED` session overwrites the session's start/end/timezone with the
proposed values and leaves its status `SCHEDULED`; approving a `PENDING`
`CANCEL` sets the status to `CANCELLED` and leaves start/end/timezone
untouched; in both cases the change request becomes `APPROVED` with the
decider recorded. -/
theorem approveChangeRequest_effects
    (st : ApproveState) (crId actorId : Nat) (cr : ChangeRequest) (sess : Session)
    (hfc : st.changeRequests.find? (fun c => c.id == crId) = some cr)
    (hp : cr.status = ChangeRequestStatus.PENDING)
    (hfs : st.sessions.find? (fun s => s.id == cr.sessionId) = some sess)
    (hs : sess.status = SessionStatus.SCHEDULED) :
    (∀ ps pe tz, cr.type = ChangeRequestType.RESCHEDULE →
      cr.proposedStartAtUtc = some ps → cr.proposedEndAtUtc = some pe →
      cr.proposedTimeZone = some tz →
      (approveChangeRequest st crId actorId).1 = ApproveOutcome.approved ∧
      (approveChangeRequest st crId actorId).2.sessions.find? (fun s => s.id == cr.sessionId) =
        some { sess with startAtUtc := ps, endAtUtc := pe, classTimeZone := tz } ∧
      ({ sess with startAtUtc := ps, endAtUtc := pe, classTimeZone := tz } : Session).status =
        SessionStatus.SCHEDULED ∧
      (approveChangeRequest st crId actorId).2.changeRequests.find? (fun c => c.id == crId) =
        some { cr with
          status := ChangeRequestStatus.APPROVED,
          decidedByAdminId := some actorId }) ∧
    (cr.type = ChangeRequestType.CANCEL →
      (approveChangeRequest st crId actorId).1 = ApproveOutcome.approved ∧
      (approveChangeRequest st crId actorId).2.sessions.find? (fun s => s.id == cr.sessionId) =
        some { sess with status := SessionStatus.CANCELLED } ∧
      (approveChangeRequest st crId actorId).2.changeRequests.find? (fun c => c.id == crId) =
        some { cr with
          status := ChangeRequestStatus.APPROVED,
          decidedByAdminId := some actorId }) := by
  have hsid : (sess.id == cr.sessionId) = true := by
    simpa using List.find?_some hfs
  have hcid : (cr.id == crId) = true := by
    simpa using List.find?_some hfc
  have hsesseq : ∀ hm : ¬(cr.type = ChangeRequestType.RESCHEDULE ∧
      (cr.proposedStartAtUtc = none ∨ cr.proposedEndAtUtc = none ∨
       cr.proposedTimeZone = none)),
      approveChangeRequest st crId actorId =
        (ApproveOutcome.approved, applyApproveEffects st cr actorId) := by
    intro hm
    unfold approveChangeRequest
    rw [hfc]
    dsimp only
    rw [if_neg (show ¬cr.status ≠ ChangeRequestStatus.PENDING from fun h => h hp), hfs]
    dsimp only
    rw [if_neg (show ¬sess.status ≠ SessionStatus.SCHEDULED from fun h => h hs), if_neg hm]
  have hfmap : (applyApproveEffects st cr actorId).sessions.find?
      (fun s => s.id == cr.sessionId) = some (applyCrToSession cr sess) := by
    have hpres : ∀ a : Session,
        (((if a.id == cr.sessionId then applyCrToSession cr a else a).id == cr.sessionId)) =
          (a.id == cr.sessionId) := by
      intro a
      by_cases h : (a.id == cr.sessionId) = true
      · rw [if_pos h, applyCrToSession_id]
      · rw [if_neg h]
    show (st.sessions.map fun s => if s.id == cr.sessionId then applyCrToSession cr s else s).find?
        (fun s => s.id == cr.sessionId) = some (applyCrToSession cr sess)
    rw [find?_map_pred_inv _ _ hpres, hfs]
    simp only [Option.map_some']
    rw [if_pos hsid]
  have hcmap : (applyApproveEffects st cr actorId).changeRequests.find?
      (fun c => c.id == crId) =
      some { cr with
        status := ChangeRequestStatus.APPROVED,
        decidedByAdminId := some actorId } := by
    have hpres : ∀ a : ChangeRequest,
        (((if a.id == cr.id then
            { a with status := ChangeRequestStatus.APPROVED,
                     decidedByAdminId := some actorId } else a).id == crId)) =
          (a.id == crId) := by
      intro a
      by_cases h : (a.id == cr.id) = true
      · rw [if_pos h]
      · rw [if_neg h]
    show (st.changeRequests.map fun c => if c.id == cr.id then
        { c with status := ChangeRequestStatus.APPROVED,
                 decidedByAdminId := some actorId } else c).find?
        (fun c => c.id == crId) = some _
    rw [find?_map_pred_inv _ _ hpres, hfc]
    simp only [Option.map_some']
    rw [if_pos (beq_self_eq_true cr.id)]
  constructor
  · intro ps pe tz htype hps hpe htz
    have hm : ¬(cr.type = ChangeRequestType.RESCHEDULE ∧
        (cr.proposedStartAtUtc = none ∨ cr.proposedEndAtUtc = none ∨
         cr.proposedTimeZone = none)) := by
      rintro ⟨-, h | h | h⟩
      · rw [hps] at h
        cases h
      · rw [hpe] at h
        cases h
      · rw [htz] at h
        cases h
    have key := hsesseq hm
    have happ : applyCrToSession cr sess =
        { sess with startAtUtc := ps, endAtUtc := pe, classTimeZone := tz } := by
      simp [applyCrToSession, htype, hps, hpe, htz]
    refine ⟨by rw [key], ?_, hs, ?_⟩
    · rw [key]
      rw [hfmap, happ]
    · rw [key]
      exact hcmap
  · intro htype
    have hm : ¬(cr.type = ChangeRequestType.RESCHEDULE ∧
        (cr.proposedStartAtUtc = none ∨ cr.proposedEndAtUtc = none ∨
         cr.proposedTimeZone = none)) := by
      rintro ⟨h, -⟩
      rw [htype] at h
      cases h
    have key := hsesseq hm
    have happ : applyCrToSession cr sess = { sess with status := SessionStatus.CANCELLED } := by
      simp [applyCrToSession, htype]
    refine ⟨by rw [key], ?_, ?_⟩
    · rw [key]
      rw [hfmap, happ]
    · rw [key]
      exact hcmap

/-- Witness for C4: approving the concrete reschedule request moves the
session to the proposed slot, keeps it `SCHEDULED`, and marks the request
`APPROVED` with decider 9. -/
theorem approveChangeRequest_effects_witness :
    (approveChangeRequest approveSample 41 9).1 = ApproveOutcome.approved ∧
    (approveChangeRequest approveSample 41 9).2.sessions.find?
        (fun s => s.id == rescheduleRequest.sessionId) =
      some { rescheduleTarget with
        startAtUtc := 7200000,
        endAtUtc := 10800000,
        classTimeZone := "Australia/Sydney" } ∧
    ({ rescheduleTarget with
        startAtUtc := 7200000,
        endAtUtc := 10800000,
        classTimeZone := "Australia/Sydney" } : Session).status = SessionStatus.SCHEDULED ∧
    (approveChangeRequest approveSample 41 9).2.changeRequests.find?
        (fun c => c.id == 41) =
      some { rescheduleRequest with
        status := ChangeRequestStatus.APPROVED,
        decidedByAdminId := some 9 } :=
  (approveChangeRequest_effects approveSample 41 9 rescheduleRequest rescheduleTarget
      (by decide) (by decide) (by decide) (by decide)).1 7200000 10800000 "Australia/Sydney"
      (by decide) (by decide) (by decide) (by decide)

/-- C6: for a student change request against one of their own `SCHEDULED`
sessions, with cutoff = startAt − 24h, creation fails `Forbidden` exactly when
`now > cutoff`; a forbidden outcome persists nothing, and creation exactly at
the cutoff is never forbidden (the boundary is exclusive on the too-late
side). -/
theorem createChangeRequest_cutoff
    (sessions : List Session) (crs : List ChangeRequest) (sid rid : Nat)
    (body : ChangeRequestBody) (nowUtc : Int) (newId : Nat) (session : Session)
    (hbody : changeRequestBodyValid body = true)
    (hfind : sessions.find? (fun s => s.id == sid && s.studentId == rid) = some session)
    (hsched : session.status = SessionStatus.SCHEDULED) :
    ((createChangeRequest sessions crs sid rid body nowUtc newId).1 =
        CreateChangeRequestOutcome.forbiddenPastCutoff ↔
      session.startAtUtc - msPerDay < nowUtc) ∧
    ((createChangeRequest sessions crs sid rid body nowUtc newId).1 =
        CreateChangeRequestOutcome.forbiddenPastCutoff →
      (createChangeRequest sessions crs sid rid body nowUtc newId).2 = crs) ∧
    (nowUtc = session.startAtUtc - msPerDay →
      (createChangeRequest sessions crs sid rid body nowUtc newId).1 ≠
        CreateChangeRequestOutcome.forbiddenPastCutoff) := by
  unfold createChangeRequest
  rw [hbody, if_pos rfl, hfind]
  dsimp only
  rw [if_neg (show ¬session.status ≠ SessionStatus.SCHEDULED from fun h => h hsched)]
  by_cases hc : session.startAtUtc - msPerDay < nowUtc
  · rw [if_pos hc]
    exact ⟨⟨fun _ => hc, fun _ => rfl⟩, fun _ => rfl, fun heq => absurd hc (by omega)⟩
  · rw [if_neg hc]
    by_cases hps : ((crs.find? (fun c => c.sessionId == session.id &&
        c.status == ChangeRequestStatus.PENDING)).isSome) = true
    · rw [if_pos hps]
      exact ⟨⟨fun h => absurd h (by simp), fun h => absurd h hc⟩,
        fun h => absurd h (by simp), fun _ h => absurd h (by simp)⟩
    · rw [if_neg hps]
      exact ⟨⟨fun h => absurd h (by simp), fun h => absurd h hc⟩,
        fun h => absurd h (by simp), fun _ h => absurd h (by simp)⟩

/-- Witness for C6: one millisecond past the cutoff the request is forbidden. -/
theorem createChangeRequest_cutoff_witness :
    (createChangeRequest [scheduledSession] [] 1 3 ChangeRequestBody.cancel 113600001 7).1 =
      CreateChangeRequestOutcome.forbiddenPastCutoff :=
  ((createChangeRequest_cutoff [scheduledSession] [] 1 3 ChangeRequestBody.cancel
      113600001 7 scheduledSession (by decide) (by decide) (by decide)).1).mpr (by decide)

/-- C9: when a `PENDING` change request already exists for the session, a
student's attempt to create a second one fails with `Conflict` and persists
nothing. -/
theorem createChangeRequest_duplicate_pending
    (sessions : List Session) (crs : List ChangeRequest) (sid rid : Nat)
    (body : ChangeRequestBody) (nowUtc : Int) (newId : Nat) (session : Session)
    (hbody : changeRequestBodyValid body = true)
    (hfind : sessions.find? (fun s => s.id == sid && s.studentId == rid) = some session)
    (hsched : session.status = SessionStatus.SCHEDULED)
    (hontime : nowUtc ≤ session.startAtUtc - msPerDay)
    (cr : ChangeRequest) (hcr : cr ∈ crs) (hsess : cr.sessionId = session.id)
    (hpend : cr.status = ChangeRequestStatus.PENDING) :
    (createChangeRequest sessions crs sid rid body nowUtc newId).1 =
      CreateChangeRequestOutcome.conflictPendingExists ∧
    (createChangeRequest sessions crs sid rid body nowUtc newId).2 = crs := by
  unfold createChangeRequest
  rw [hbody, if_pos rfl, hfind]
  dsimp only
  rw [if_neg (show ¬session.status ≠ SessionStatus.SCHEDULED from fun h => h hsched),
    if_neg (not_lt.mpr hontime)]
  have hps : ((crs.find? (fun c => c.sessionId == session.id &&
      c.status == ChangeRequestStatus.PENDING)).isSome) = true :=
    List.find?_isSome.mpr ⟨cr, hcr, by simp [hsess, hpend]⟩
  rw [if_pos hps]
  exact ⟨rfl, rfl⟩

/-- The selection condition of the completion job, spelled out. -/
theorem sessionEligible_iff (now : Int) (s : Session) :
    sessionEligible now s = true ↔ s.status = SessionStatus.SCHEDULED ∧ s.endAtUtc ≤ now := by
  simp [sessionEligible]

/-- The conditional completion of the job preserves the session id. -/
theorem flipCompleted_id (sid : Nat) (s : Session) : (flipCompleted sid s).id = s.id := by
  unfold flipCompleted
  split <;> rfl

/-- One job transaction, evaluated on an eligible and not-yet-charged session
in a table with distinct ids: it completes exactly that session and appends
its consumption entry. -/
theorem processOne_eligible (now : Int) (db : JobDb) (s : Session)
    (hnd : (db.sessions.map (fun x => x.id)).Nodup) (hs : s ∈ db.sessions)
    (helig : sessionEligible now s = true)
    (hnoent : ∀ e ∈ db.ledger, e.sessionId ≠ some s.id) :
    processOne now db s.id =
      { sessions := db.sessions.map (flipCompleted s.id),
        ledger := db.ledger ++ [consumeEntry s] } := by
  have hfind : db.sessions.find? (fun x => x.id == s.id) = some s :=
    find?_eq_some_of_nodup_map (fun x => x.id) hnd hs
  obtain ⟨hstat, hend⟩ := (sessionEligible_iff now s).mp helig
  have hany : db.ledger.any (fun e => e.sessionId == some s.id) = false :=
    List.any_eq_false.mpr (fun e he => by simpa using hnoent e he)
  unfold processOne
  rw [hfind]
  dsimp only
  rw [if_neg (not_lt.mpr hend), if_neg (by simp [hstat]), hany]
  rw [if_neg Bool.false_ne_true]

/-- Folding the per-session transactions over a duplicate-free list of ids of
eligible, uncharged sessions completes exactly those sessions and appends one
consumption entry per id, in order. -/
theorem runIds_spec (now : Int) (ids : List Nat) :
    ∀ db : JobDb,
    (db.sessions.map (fun s => s.id)).Nodup →
    ids.Nodup →
    (∀ i ∈ ids, ∃ s ∈ db.sessions, s.id = i ∧ sessionEligible now s = true) →
    (∀ i ∈ ids, ∀ e ∈ db.ledger, e.sessionId ≠ some i) →
    (ids.foldl (processOne now) db).sessions =
      db.sessions.map (fun s =>
        if s.id ∈ ids then { s with status := SessionStatus.COMPLETED } else s) ∧
    (ids.foldl (processOne now) db).ledger =
      db.ledger ++ ids.filterMap (fun i =>
        (db.sessions.find? (fun x => x.id == i)).map consumeEntry) := by
  induction ids with
  | nil =>
    intro db _ _ _ _
    simp
  | cons i rest ih =>
    intro db hnd hidnd hids hled
    obtain ⟨s₀, hs₀mem, hs₀id, hs₀elig⟩ := hids i (List.mem_cons_self i rest)
    subst hs₀id
    have hin : s₀.id ∉ rest ∧ rest.Nodup := List.nodup_cons.mp hidnd
    have hstep : processOne now db s₀.id =
        { sessions := db.sessions.map (flipCompleted s₀.id),
          ledger := db.ledger ++ [consumeEntry s₀] } :=
      processOne_eligible now db s₀ hnd hs₀mem hs₀elig
        (fun e he => hled s₀.id (List.mem_cons_self s₀.id rest) e he)
    have hnd₁ : ((db.sessions.map (flipCompleted s₀.id)).map (fun s => s.id)).Nodup := by
      rw [List.map_map]
      have hcomp : ((fun s : Session => s.id) ∘ flipCompleted s₀.id) =
          (fun s : Session => s.id) := funext (fun s => flipCompleted_id s₀.id s)
      rw [hcomp]
      exact hnd
    have hids₁ : ∀ j ∈ rest, ∃ s ∈ db.sessions.map (flipCompleted s₀.id),
        s.id = j ∧ sessionEligible now s = true := by
      intro j hj
      obtain ⟨t, htmem, htid, htelig⟩ := hids j (List.mem_cons_of_mem _ hj)
      have hne : ¬t.id = s₀.id := by
        rw [htid]
        intro hh
        exact hin.1 (hh ▸ hj)
      have hflip : flipCompleted s₀.id t = t := by
        unfold flipCompleted
        rw [if_neg (by simp [hne])]
      refine ⟨t, ?_, htid, htelig⟩
      rw [← hflip]
      exact List.mem_map_of_mem _ htmem
    have hled₁ : ∀ j ∈ rest, ∀ e ∈ db.ledger ++ [consumeEntry s₀], e.sessionId ≠ some j := by
      intro j hj e he
      rcases List.mem_append.mp he with h | h
      · exact hled j (List.mem_cons_of_mem _ hj) e h
      · have he' : e = consumeEntry s₀ := by simpa using h
        rw [he']
        intro hh
        have : s₀.id = j := by simpa [consumeEntry] using hh
        exact hin.1 (this ▸ hj)
    obtain ⟨ihs, ihl⟩ := ih ⟨db.sessions.map (flipCompleted s₀.id),
        db.ledger ++ [consumeEntry s₀]⟩ hnd₁ hin.2 hids₁ hled₁
    have hfind₀ : db.sessions.find? (fun x => x.id == s₀.id) = some s₀ :=
      find?_eq_some_of_nodup_map (fun x => x.id) hnd hs₀mem
    constructor
    · rw [List.foldl_cons, hstep, ihs, List.map_map]
      apply List.map_congr_left
      intro t ht
      simp only [Function.comp]
      by_cases hid : t.id = s₀.id
      · have hts : t = s₀ :=
          List.inj_on_of_nodup_map hnd ht hs₀mem hid
        subst hts
        have hstat : t.status = SessionStatus.SCHEDULED :=
          ((sessionEligible_iff now t).mp hs₀elig).1
        have hflip : flipCompleted t.id t = { t with status := SessionStatus.COMPLETED } := by
          unfold flipCompleted
          rw [if_pos (by simp [hstat])]
        rw [hflip,
          if_neg (show ¬({ t with status := SessionStatus.COMPLETED } : Session).id ∈ rest from
            hin.1),
          if_pos (List.mem_cons_self t.id rest)]
      · have hflip : flipCompleted s₀.id t = t := by
          unfold flipCompleted
          rw [if_neg (by simp [hid])]
        rw [hflip]
        by_cases hr : t.id ∈ rest
        · rw [if_pos hr, if_pos (List.mem_cons_of_mem _ hr)]
        · rw [if_neg hr, if_neg (by
            intro hm
            rcases List.mem_cons.mp hm with h | h
            · exact hid h
            · exact hr h)]
    · rw [List.foldl_cons, hstep, ihl]
      have hcongr : rest.filterMap (fun j =>
          ((db.sessions.map (flipCompleted s₀.id)).find? (fun x => x.id == j)).map
            consumeEntry) =
          rest.filterMap (fun j =>
            (db.sessions.find? (fun x => x.id == j)).map consumeEntry) := by
        apply List.filterMap_congr
        intro j hj
        obtain ⟨t, htmem, htid, _⟩ := hids j (List.mem_cons_of_mem _ hj)
        have hne : ¬t.id = s₀.id := by
          rw [htid]
          intro hh
          exact hin.1 (hh ▸ hj)
        have hpres : ∀ a : Session,
            ((flipCompleted s₀.id a).id == j) = (a.id == j) := by
          intro a
          rw [flipCompleted_id]
        rw [find?_map_pred_inv _ _ hpres]
        subst htid
        rw [find?_eq_some_of_nodup_map (fun x => x.id) hnd htmem]
        have hflip : flipCompleted s₀.id t = t := by
          unfold flipCompleted
          rw [if_neg (by simp [hne])]
        simp only [Option.map_some', hflip]
      rw [hcongr, List.filterMap_cons, hfind₀]
      simp only [Option.map_some']
      rw [List.append_assoc, List.singleton_append]

/-- Entries appended by the job for a duplicate-free id list contain exactly
one entry for each processed session. -/
theorem consume_entries_filter (sessions : List Session)
    (hnd : (sessions.map (fun s => s.id)).Nodup) :
    ∀ ids : List Nat, ids.Nodup →
    (∀ i ∈ ids, ∃ t ∈ sessions, t.id = i) →
    ∀ s ∈ sessions, s.id ∈ ids →
    (ids.filterMap (fun i =>
        (sessions.find? (fun x => x.id == i)).map consumeEntry)).filter
      (fun e => e.sessionId == some s.id) = [consumeEntry s] := by
  intro ids
  induction ids with
  | nil =>
    intro _ _ s _ hin
    cases hin
  | cons i rest ih =>
    intro hidnd hex s hsmem hin
    have hrestnd := List.nodup_cons.mp hidnd
    obtain ⟨t, htmem, htid⟩ := hex i (List.mem_cons_self i rest)
    have hfind_t : sessions.find? (fun x => x.id == i) = some t := by
      subst htid
      exact find?_eq_some_of_nodup_map (fun x => x.id) hnd htmem
    rw [List.filterMap_cons, hfind_t]
    simp only [Option.map_some']
    by_cases hcase : s.id = i
    · have hts : t = s :=
        List.inj_on_of_nodup_map hnd htmem hsmem (htid.trans hcase.symm)
      subst hts
      rw [List.filter_cons_of_pos (by simp [consumeEntry, htid, hcase])]
      have hrest : (rest.filterMap (fun i =>
          (sessions.find? (fun x => x.id == i)).map consumeEntry)).filter
            (fun e => e.sessionId == some t.id) = [] := by
        apply List.filter_eq_nil_iff.mpr
        intro e he
        obtain ⟨j, hj, hfj⟩ := List.mem_filterMap.mp he
        cases hfu : sessions.find? (fun x => x.id == j) with
        | none =>
          rw [hfu] at hfj
          cases hfj
        | some u =>
          rw [hfu] at hfj
          have hu : consumeEntry u = e := by simpa using hfj
          have huid : u.id = j := by simpa using List.find?_some hfu
          rw [← hu]
          have hji : ¬j = i := by
            intro hh
            exact hrestnd.1 (hh ▸ hj)
          simp [consumeEntry, huid, hcase, hji]
      rw [hrest]
    · have hhead : ¬((consumeEntry t).sessionId == some s.id) = true := by
        have : t.id ≠ s.id := by
          rw [htid]
          exact fun hh => hcase hh.symm
        simp [consumeEntry, this]
      rw [@List.filter_cons_of_neg _ (fun e => e.sessionId == some s.id) (consumeEntry t) _
        hhead]
      have hin' : s.id ∈ rest := by
        rcases List.mem_cons.mp hin with h | h
        · exact absurd h hcase
        · exact h
      exact ih hrestnd.2 (fun j hj => hex j (List.mem_cons_of_mem _ hj)) s hsmem hin'

/-- A job run over a table with no eligible session is the identity. -/
theorem completeEndedSessions_of_no_eligible (db : JobDb) (now : Int) (batchSize : Nat)
    (h : db.sessions.filter (sessionEligible now) = []) :
    completeEndedSessions db now batchSize = db := by
  unfold completeEndedSessions selectBatch
  rw [h]
  simp [List.insertionSort]

/-- C2 counterexample: with batch size 1 and two eligible sessions, the second
run with the same `now` completes one more session and writes one more ledger
entry, so running the job twice does not yield the same final state as running
it once. -/
theorem completeEndedSessions_batch_counterexample :
    (completeEndedSessions (completeEndedSessions twoEligibleDb 100 1) 100 1).sessions ≠
      (completeEndedSessions twoEligibleDb 100 1).sessions ∧
    (completeEndedSessions twoEligibleDb 100 1).ledger.length = 1 ∧
    (completeEndedSessions (completeEndedSessions twoEligibleDb 100 1) 100 1).ledger.length =
      2 := by
  decide

/-- C2 (amended): over a table with distinct session ids, with every eligible
session still uncharged and the whole eligible set fitting in one batch,
running the completion job twice with the same `now` yields exactly the state
of running it once (same statuses, same ledger, hence unchanged remaining
units); after the run every eligible session is `COMPLETED` and carries
exactly one `SESSION_CONSUME` ledger entry with `deltaUnits = -consumesUnits`. -/
theorem completeEndedSessions_idempotent (db : JobDb) (now : Int) (batchSize : Nat)
    (hnd : (db.sessions.map (fun s => s.id)).Nodup)
    (hbatch : (db.sessions.filter (sessionEligible now)).length ≤ batchSize)
    (hled : ∀ s ∈ db.sessions, sessionEligible now s = true →
      ∀ e ∈ db.ledger, e.sessionId ≠ some s.id) :
    completeEndedSessions (completeEndedSessions db now batchSize) now batchSize =
      completeEndedSessions db now batchSize ∧
    (∀ s ∈ db.sessions, sessionEligible now s = true →
      (completeEndedSessions db now batchSize).sessions.find? (fun x => x.id == s.id) =
        some { s with status := SessionStatus.COMPLETED } ∧
      (completeEndedSessions db now batchSize).ledger.filter
          (fun e => e.sessionId == some s.id) = [consumeEntry s]) := by
  have hsel : selectBatch db.sessions now batchSize =
      List.insertionSort byEndAt (db.sessions.filter (sessionEligible now)) := by
    unfold selectBatch
    apply List.take_of_length_le
    rw [List.length_insertionSort]
    exact hbatch
  have hperm : (selectBatch db.sessions now batchSize).Perm
      (db.sessions.filter (sessionEligible now)) := by
    rw [hsel]
    exact List.perm_insertionSort _ _
  have hidsperm : ((selectBatch db.sessions now batchSize).map (fun s => s.id)).Perm
      ((db.sessions.filter (sessionEligible now)).map (fun s => s.id)) := hperm.map _
  have hfilnd : ((db.sessions.filter (sessionEligible now)).map (fun s => s.id)).Nodup :=
    ((List.filter_sublist db.sessions).map (fun s => s.id)).nodup hnd
  have hidnd : ((selectBatch db.sessions now batchSize).map (fun s => s.id)).Nodup :=
    hidsperm.symm.nodup hfilnd
  have hmemids : ∀ i, i ∈ (selectBatch db.sessions now batchSize).map (fun s => s.id) ↔
      ∃ s ∈ db.sessions, s.id = i ∧ sessionEligible now s = true := by
    intro i
    rw [hidsperm.mem_iff]
    constructor
    · intro hm
      obtain ⟨s, hsf, hsi⟩ := List.mem_map.mp hm
      obtain ⟨hsmem, hselig⟩ := List.mem_filter.mp hsf
      exact ⟨s, hsmem, hsi, hselig⟩
    · rintro ⟨s, hsmem, rfl, hselig⟩
      exact List.mem_map_of_mem _ (List.mem_filter.mpr ⟨hsmem, hselig⟩)
  have hids : ∀ i ∈ (selectBatch db.sessions now batchSize).map (fun s => s.id),
      ∃ s ∈ db.sessions, s.id = i ∧ sessionEligible now s = true :=
    fun i hi => (hmemids i).mp hi
  have hledids : ∀ i ∈ (selectBatch db.sessions now batchSize).map (fun s => s.id),
      ∀ e ∈ db.ledger, e.sessionId ≠ some i := by
    intro i hi e he
    obtain ⟨s, hsmem, rfl, hselig⟩ := hids i hi
    exact hled s hsmem hselig e he
  obtain ⟨hsess, hledg⟩ :=
    runIds_spec now ((selectBatch db.sessions now batchSize).map (fun s => s.id)) db
      hnd hidnd hids hledids
  have hrun : completeEndedSessions db now batchSize =
      ((selectBatch db.sessions now batchSize).map (fun s => s.id)).foldl
        (processOne now) db := rfl
  have hnoelig : (completeEndedSessions db now batchSize).sessions.filter
      (sessionEligible now) = [] := by
    rw [hrun, hsess]
    apply List.filter_eq_nil_iff.mpr
    intro t ht
    obtain ⟨u, humem, rfl⟩ := List.mem_map.mp ht
    by_cases hu : u.id ∈ (selectBatch db.sessions now batchSize).map (fun s => s.id)
    · rw [if_pos hu]
      simp [sessionEligible]
    · rw [if_neg hu]
      intro helig'
      exact hu ((hmemids u.id).mpr ⟨u, humem, rfl, helig'⟩)
  refine ⟨completeEndedSessions_of_no_eligible _ now batchSize hnoelig, ?_⟩
  intro s hsmem hselig
  have hsidin : s.id ∈ (selectBatch db.sessions now batchSize).map (fun s => s.id) :=
    (hmemids s.id).mpr ⟨s, hsmem, rfl, hselig⟩
  constructor
  · rw [hrun, hsess]
    have hpres : ∀ a : Session,
        (((if a.id ∈ (selectBatch db.sessions now batchSize).map (fun s => s.id) then
            { a with status := SessionStatus.COMPLETED } else a).id == s.id)) =
          (a.id == s.id) := by
      intro a
      by_cases h : a.id ∈ (selectBatch db.sessions now batchSize).map (fun s => s.id)
      · rw [if_pos h]
      · rw [if_neg h]
    rw [find?_map_pred_inv _ _ hpres,
      find?_eq_some_of_nodup_map (fun x => x.id) hnd hsmem]
    simp only [Option.map_some']
    rw [if_pos hsidin]
  · rw [hrun, hledg, List.filter_append]
    have h1 : db.ledger.filter (fun e => e.sessionId == some s.id) = [] :=
      List.filter_eq_nil_iff.mpr (fun e he => by simpa using hled s hsmem hselig e he)
    rw [h1,
      consume_entries_filter db.sessions hnd
        ((selectBatch db.sessions now batchSize).map (fun s => s.id)) hidnd
        (fun i hi => (hids i hi).imp (fun t hh => ⟨hh.1, hh.2.1⟩)) s hsmem hsidin,
      List.nil_append]

/-- Witness for C2: the amended theorem instantiated on a single eligible
session, with the default batch size. -/
theorem completeEndedSessions_idempotent_witness :
    completeEndedSessions (completeEndedSessions singleEligibleDb 100 100) 100 100 =
      completeEndedSessions singleEligibleDb 100 100 ∧
    (∀ s ∈ singleEligibleDb.sessions, sessionEligible 100 s = true →
      (completeEndedSessions singleEligibleDb 100 100).sessions.find?
          (fun x => x.id == s.id) =
        some { s with status := SessionStatus.COMPLETED } ∧
      (completeEndedSessions singleEligibleDb 100 100).ledger.filter
          (fun e => e.sessionId == some s.id) = [consumeEntry s]) :=
  completeEndedSessions_idempotent singleEligibleDb 100 100 (by decide) (by decide)
    (by decide)

/-- Witness for C9: a second change request against a session with a pending
one yields the conflict outcome and leaves the table unchanged. -/
theorem createChangeRequest_duplicate_pending_witness :
    (createChangeRequest [scheduledSession] [pendingRequest] 1 3
        ChangeRequestBody.cancel 100000000 7).1 =
      CreateChangeRequestOutcome.conflictPendingExists ∧
    (createChangeRequest [scheduledSession] [pendingRequest] 1 3
        ChangeRequestBody.cancel 100000000 7).2 = [pendingRequest] :=
  createChangeRequest_duplicate_pending [scheduledSession] [pendingRequest] 1 3
    ChangeRequestBody.cancel 100000000 7 scheduledSession (by decide) (by decide)
    (by decide) (by decide) pendingRequest (by decide) (by decide) (by decide)

/-- Effect of one map update on the recorded totals of any currency:
the bumped currency gains the deltas, every other currency is untouched. -/
theorem lookupTotals_bumpCurrency (c c' : Currency) (cents : Int) (hours : F64)
    (m : List CurrencyTotals) :
    lookupTotals (bumpCurrency c cents hours m) c' =
      if c' = c then
        { lookupTotals m c' with
          totalCents := (lookupTotals m c').totalCents + cents,
          totalHours := floatAdd (lookupTotals m c').totalHours hours,
          sessionsCount := (lookupTotals m c').sessionsCount + 1 }
      else lookupTotals m c' := by
  induction m with
  | nil =>
    by_cases h : c' = c
    · subst h
      simp [bumpCurrency, lookupTotals, zeroTotals]
    · simp [bumpCurrency, lookupTotals, zeroTotals, h, Ne.symm h]
  | cons t ts ih =>
    by_cases ht : t.currency = c
    · rw [show bumpCurrency c cents hours (t :: ts) =
          { t with totalCents := t.totalCents + cents,
                   totalHours := floatAdd t.totalHours hours,
                   sessionsCount := t.sessionsCount + 1 } :: ts by
        simp [bumpCurrency, ht]]
      by_cases h : c' = c
      · subst h
        unfold lookupTotals
        rw [List.find?_cons_of_pos _ (by simp [ht]), List.find?_cons_of_pos _ (by simp [ht]),
          if_pos rfl]
        rfl
      · unfold lookupTotals
        rw [List.find?_cons_of_neg _ (by simp [ht]; intro hh; exact h hh.symm),
          List.find?_cons_of_neg _ (by simp [ht]; intro hh; exact h hh.symm), if_neg h]
    · rw [show bumpCurrency c cents hours (t :: ts) = t :: bumpCurrency c cents hours ts by
        simp [bumpCurrency, ht]]
      by_cases h2 : t.currency = c'
      · have hne : ¬c' = c := fun hh => ht (by rw [h2, hh])
        unfold lookupTotals
        rw [List.find?_cons_of_pos _ (by simp [h2]), List.find?_cons_of_pos _ (by simp [h2]),
          if_neg hne]
      · have hl : lookupTotals (t :: bumpCurrency c cents hours ts) c' =
            lookupTotals (bumpCurrency c cents hours ts) c' := by
          unfold lookupTotals
          rw [List.find?_cons_of_neg _ (by simp [h2])]
        have hr : lookupTotals (t :: ts) c' = lookupTotals ts c' := by
          unfold lookupTotals
          rw [List.find?_cons_of_neg _ (by simp [h2])]
        rw [hl, hr, ih]

/-- Cents delta of one map update. -/
theorem centsFor_bumpCurrency (c c' : Currency) (cents : Int) (hours : F64)
    (m : List CurrencyTotals) :
    centsFor (bumpCurrency c cents hours m) c' =
      centsFor m c' + (if c' = c then cents else 0) := by
  unfold centsFor
  rw [lookupTotals_bumpCurrency]
  by_cases h : c' = c
  · simp [h]
  · simp [h]

/-- Session-count delta of one map update. -/
theorem countFor_bumpCurrency (c c' : Currency) (cents : Int) (hours : F64)
    (m : List CurrencyTotals) :
    countFor (bumpCurrency c cents hours m) c' =
      countFor m c' + (if c' = c then 1 else 0) := by
  unfold countFor
  rw [lookupTotals_bumpCurrency]
  by_cases h : c' = c
  · simp [h]
  · simp [h]

/-- Effect of one nested-map update on the sum of a per-currency measure over
all student entries. -/
theorem sum_map_bumpStudent {M : Type} [AddCommMonoid M] (row : PayrollRow)
    (cents : Int) (hours : F64) (g : List CurrencyTotals → M) (d : M)
    (hnil : g [] = 0)
    (hbump : ∀ m, g (bumpCurrency row.currencySnapshot cents hours m) = g m + d)
    (students : List StudentTotals) :
    ((bumpStudent row cents hours students).map (fun e => g e.totals)).sum =
      (students.map (fun e => g e.totals)).sum + d := by
  induction students with
  | nil =>
    simp [bumpStudent, hbump, hnil]
  | cons e es ih =>
    by_cases h : e.studentId = row.studentId
    · simp only [bumpStudent, if_pos h, List.map_cons, List.sum_cons, hbump]
      exact add_right_comm _ _ _
    · simp only [bumpStudent, if_neg h, List.map_cons, List.sum_cons, ih]
      exact (add_assoc _ _ _).symm

/-- One loop iteration preserves consistency of the two maps. -/
theorem payrollStep_consistent (acc : List CurrencyTotals × List StudentTotals)
    (row : PayrollRow) (hinv : totalsConsistent acc.1 acc.2) :
    totalsConsistent (payrollStep acc row).1 (payrollStep acc row).2 := by
  unfold payrollStep
  by_cases hd : row.endAtUtc - row.startAtUtc ≤ 0
  · rw [if_pos hd]
    exact hinv
  · rw [if_neg hd]
    dsimp only
    intro c
    obtain ⟨h1, h3⟩ := hinv c
    refine ⟨?_, ?_⟩
    · rw [centsFor_bumpCurrency,
        sum_map_bumpStudent row _ _ (fun m => centsFor m c) _ rfl
          (fun m => centsFor_bumpCurrency row.currencySnapshot c _ _ m), h1]
    · rw [countFor_bumpCurrency,
        sum_map_bumpStudent row _ _ (fun m => countFor m c) _ rfl
          (fun m => countFor_bumpCurrency row.currencySnapshot c _ _ m), h3]

/-- Consistency of the two maps is an invariant of the whole fold. -/
theorem payrollFold_consistent (rs : List PayrollRow) :
    ∀ acc : List CurrencyTotals × List StudentTotals, totalsConsistent acc.1 acc.2 →
    totalsConsistent (rs.foldl payrollStep acc).1 (rs.foldl payrollStep acc).2 := by
  induction rs with
  | nil =>
    intro acc h
    exact h
  | cons r rest ih =>
    intro acc h
    rw [List.foldl_cons]
    exact ih _ (payrollStep_consistent acc r h)

/-- The accumulated maps of the payroll loop are consistent. -/
theorem payrollAccumulate_consistent (rows : List PayrollRow) :
    totalsConsistent (payrollAccumulate rows).1 (payrollAccumulate rows).2 :=
  payrollFold_consistent rows ([], []) (fun _ => ⟨rfl, rfl⟩)

/-- Currencies present after one map update: the old ones and the bumped one. -/
theorem mem_bumpCurrency_keys (c : Currency) (cents : Int) (hours : F64)
    (m : List CurrencyTotals) (c' : Currency)
    (h : c' ∈ (bumpCurrency c cents hours m).map (fun t => t.currency)) :
    c' ∈ m.map (fun t => t.currency) ∨ c' = c := by
  induction m with
  | nil =>
    right
    simpa [bumpCurrency] using h
  | cons t ts ih =>
    by_cases ht : t.currency = c
    · rw [show bumpCurrency c cents hours (t :: ts) =
          { t with totalCents := t.totalCents + cents,
                   totalHours := floatAdd t.totalHours hours,
                   sessionsCount := t.sessionsCount + 1 } :: ts by
        simp [bumpCurrency, ht]] at h
      left
      simpa using h
    · rw [show bumpCurrency c cents hours (t :: ts) = t :: bumpCurrency c cents hours ts by
        simp [bumpCurrency, ht]] at h
      rcases List.mem_cons.mp h with h2 | h2
      · left
        rw [List.map_cons]
        exact h2 ▸ List.mem_cons_self _ _
      · rcases ih h2 with h3 | h3
        · left
          rw [List.map_cons]
          exact List.mem_cons_of_mem _ h3
        · right
          exact h3

/-- One map update keeps the currency keys duplicate-free. -/
theorem bumpCurrency_keys_nodup (c : Currency) (cents : Int) (hours : F64)
    (m : List CurrencyTotals) (hnd : (m.map (fun t => t.currency)).Nodup) :
    ((bumpCurrency c cents hours m).map (fun t => t.currency)).Nodup := by
  induction m with
  | nil =>
    simp [bumpCurrency]
  | cons t ts ih =>
    rw [List.map_cons, List.nodup_cons] at hnd
    by_cases ht : t.currency = c
    · rw [show bumpCurrency c cents hours (t :: ts) =
          { t with totalCents := t.totalCents + cents,
                   totalHours := floatAdd t.totalHours hours,
                   sessionsCount := t.sessionsCount + 1 } :: ts by
        simp [bumpCurrency, ht]]
      rw [List.map_cons, List.nodup_cons]
      exact ⟨hnd.1, hnd.2⟩
    · rw [show bumpCurrency c cents hours (t :: ts) = t :: bumpCurrency c cents hours ts by
        simp [bumpCurrency, ht]]
      rw [List.map_cons, List.nodup_cons]
      refine ⟨?_, ih hnd.2⟩
      intro hmem
      rcases mem_bumpCurrency_keys c cents hours ts t.currency hmem with h | h
      · exact hnd.1 h
      · exact ht h

/-- Shape of the entries of the student map after one update. -/
theorem mem_bumpStudent (row : PayrollRow) (cents : Int) (hours : F64) :
    ∀ (students : List StudentTotals) (e' : StudentTotals),
    e' ∈ bumpStudent row cents hours students →
    e' ∈ students ∨
    (∃ e ∈ students,
      e' = { e with totals := bumpCurrency row.currencySnapshot cents hours e.totals }) ∨
    e' = { studentId := row.studentId, studentName := row.studentName,
           totals := bumpCurrency row.currencySnapshot cents hours [] } := by
  intro students
  induction students with
  | nil =>
    intro e' he
    right
    right
    simpa [bumpStudent] using he
  | cons e es ih =>
    intro e' he
    by_cases h : e.studentId = row.studentId
    · rw [show bumpStudent row cents hours (e :: es) =
          { e with totals := bumpCurrency row.currencySnapshot cents hours e.totals } :: es by
        simp [bumpStudent, h]] at he
      rcases List.mem_cons.mp he with rfl | hmem
      · right
        left
        exact ⟨e, List.mem_cons_self _ _, rfl⟩
      · left
        exact List.mem_cons_of_mem _ hmem
    · rw [show bumpStudent row cents hours (e :: es) =
          e :: bumpStudent row cents hours es by
        simp [bumpStudent, h]] at he
      rcases List.mem_cons.mp he with rfl | hmem
      · left
        exact List.mem_cons_self _ _
      · rcases ih e' hmem with h1 | ⟨u, hu, h2⟩ | h3
        · left
          exact List.mem_cons_of_mem _ h1
        · right
          left
          exact ⟨u, List.mem_cons_of_mem _ hu, h2⟩
        · right
          right
          exact h3

/-- The fold keeps the currency keys of the top map and of every student entry
duplicate-free. -/
theorem payrollFold_nodup (rs : List PayrollRow) :
    ∀ acc : List CurrencyTotals × List StudentTotals,
    (acc.1.map (fun t => t.currency)).Nodup →
    (∀ e ∈ acc.2, (e.totals.map (fun t => t.currency)).Nodup) →
    ((rs.foldl payrollStep acc).1.map (fun t => t.currency)).Nodup ∧
    ∀ e ∈ (rs.foldl payrollStep acc).2, (e.totals.map (fun t => t.currency)).Nodup := by
  induction rs with
  | nil =>
    intro acc h1 h2
    exact ⟨h1, h2⟩
  | cons r rest ih =>
    intro acc h1 h2
    rw [List.foldl_cons]
    apply ih
    · unfold payrollStep
      by_cases hd : r.endAtUtc - r.startAtUtc ≤ 0
      · rw [if_pos hd]
        exact h1
      · rw [if_neg hd]
        exact bumpCurrency_keys_nodup _ _ _ acc.1 h1
    · unfold payrollStep
      by_cases hd : r.endAtUtc - r.startAtUtc ≤ 0
      · rw [if_pos hd]
        exact h2
      · rw [if_neg hd]
        dsimp only
        intro e' he'
        rcases mem_bumpStudent r _ _ acc.2 e' he' with hmem | ⟨u, hu, rfl⟩ | rfl
        · exact h2 e' hmem
        · exact bumpCurrency_keys_nodup _ _ _ u.totals (h2 u hu)
        · exact bumpCurrency_keys_nodup _ _ _ [] (by simp)

/-- The accumulated maps have duplicate-free currency keys. -/
theorem payrollAccumulate_nodup (rows : List PayrollRow) :
    (((payrollAccumulate rows).1).map (fun t => t.currency)).Nodup ∧
    ∀ e ∈ (payrollAccumulate rows).2, (e.totals.map (fun t => t.currency)).Nodup :=
  payrollFold_nodup rows ([], []) (by simp) (by simp)

/-- A search with at most one possible hit gives the same result on any
permutation of the list. -/
theorem find?_eq_of_perm_unique {α : Type} (p : α → Bool) {l l' : List α} (hp : l.Perm l')
    (huniq : ∀ a ∈ l, ∀ b ∈ l, p a = true → p b = true → a = b) :
    l.find? p = l'.find? p := by
  cases hfa : l.find? p with
  | some a =>
    cases hfb : l'.find? p with
    | some b =>
      rw [huniq a (List.mem_of_find?_eq_some hfa)
        b (hp.mem_iff.mpr (List.mem_of_find?_eq_some hfb))
        (List.find?_some hfa) (List.find?_some hfb)]
    | none =>
      exact absurd (List.find?_some hfa)
        (List.find?_eq_none.mp hfb a (hp.mem_iff.mp (List.mem_of_find?_eq_some hfa)))
  | none =>
    cases hfb : l'.find? p with
    | some b =>
      exact absurd (List.find?_some hfb)
        (List.find?_eq_none.mp hfa b (hp.mem_iff.mpr (List.mem_of_find?_eq_some hfb)))
    | none => rfl

/-- With duplicate-free currency keys, the recorded totals are invariant under
permutation, in particular under the output sorting. -/
theorem lookupTotals_perm (m m' : List CurrencyTotals) (hp : m.Perm m')
    (hnd : (m.map (fun t => t.currency)).Nodup) (c : Currency) :
    lookupTotals m c = lookupTotals m' c := by
  unfold lookupTotals
  rw [find?_eq_of_perm_unique (fun t => t.currency == c) hp]
  intro a ha b hb hpa hpb
  have ha' : a.currency = c := by simpa using hpa
  have hb' : b.currency = c := by simpa using hpb
  exact List.inj_on_of_nodup_map hnd ha hb (ha'.trans hb'.symm)

/-- C10 (amended): for each currency, the top-level totals entry's
`totalCents` and `sessionsCount` equal the sums of the corresponding fields
over all per-student entries for that currency in the `byStudent` breakdown,
so every session counted in a per-student entry is counted exactly once in
the top-level totals; the `totalHours` fields, accumulated in binary64
floating point, satisfy the analogous equality only up to rounding (see the
counterexample). -/
theorem payroll_totals_consistent (rows : List PayrollRow) (c : Currency) :
    centsFor (payrollTotals rows) c =
      ((payrollByStudent rows).map (fun e => centsFor e.totals c)).sum ∧
    countFor (payrollTotals rows) c =
      ((payrollByStudent rows).map (fun e => countFor e.totals c)).sum := by
  obtain ⟨hndtop, hndstu⟩ := payrollAccumulate_nodup rows
  obtain ⟨h1, h3⟩ := payrollAccumulate_consistent rows c
  have htop : lookupTotals (payrollTotals rows) c =
      lookupTotals (payrollAccumulate rows).1 c := by
    unfold payrollTotals
    exact (lookupTotals_perm _ _ (List.perm_insertionSort byCurrencyCode _).symm
      hndtop c).symm
  have hinner : ∀ e ∈ (payrollAccumulate rows).2,
      lookupTotals (List.insertionSort byCurrencyCode e.totals) c =
        lookupTotals e.totals c :=
    fun e he => (lookupTotals_perm _ _ (List.perm_insertionSort byCurrencyCode _).symm
      (hndstu e he) c).symm
  have hsum : ∀ {M : Type} [AddCommMonoid M] (f : CurrencyTotals → M),
      ((payrollByStudent rows).map (fun e => f (lookupTotals e.totals c))).sum =
        (((payrollAccumulate rows).2).map (fun e => f (lookupTotals e.totals c))).sum := by
    intro M hM f
    unfold payrollByStudent
    have hperm := (List.perm_insertionSort byStudentName
      (((payrollAccumulate rows).2).map (fun e =>
        { e with totals := List.insertionSort byCurrencyCode e.totals }))).map
      (fun e => f (lookupTotals e.totals c))
    rw [hperm.sum_eq, List.map_map]
    apply congrArg
    apply List.map_congr_left
    intro e he
    simp only [Function.comp]
    rw [hinner e he]
  refine ⟨?_, ?_⟩
  · unfold centsFor at h1 ⊢
    rw [htop, h1]
    exact (hsum (fun t => t.totalCents)).symm
  · unfold countFor at h3 ⊢
    rw [htop, h3]
    exact (hsum (fun t => t.sessionsCount)).symm

set_option maxRecDepth 20000 in
/-- C10 counterexample: on the 12/6/18-minute rows the top-level AUD hour
total is the binary64 value 0.6000000000000001 (mantissa 5404319552844596,
exponent -53) while the per-student entries hold exactly 0.5 (student 1) and
0.1 (student 2), so the top-level `totalHours` differs from the sum of the
per-student `totalHours` values: binary64 accumulation is order-sensitive and
the unrestricted hour-total equality of the claim fails. -/
theorem payroll_totalHours_rounding_counterexample :
    F64.toRat (hoursFor (payrollTotals hoursRoundingRows) Currency.AUD) ≠
      ((payrollByStudent hoursRoundingRows).map
        (fun e => F64.toRat (hoursFor e.totals Currency.AUD))).sum := by
  have htop : hoursFor (payrollTotals hoursRoundingRows) Currency.AUD =
      { m := 5404319552844596, exp := -53 } := by decide
  have hstu : (payrollByStudent hoursRoundingRows).map
      (fun e => hoursFor e.totals Currency.AUD) =
      [{ m := 4503599627370496, exp := -53 }, { m := 7205759403792794, exp := -56 }] := by
    decide
  have hmap : (payrollByStudent hoursRoundingRows).map
      (fun e => F64.toRat (hoursFor e.totals Currency.AUD)) =
      ((payrollByStudent hoursRoundingRows).map
        (fun e => hoursFor e.totals Currency.AUD)).map F64.toRat := by
    rw [List.map_map]
    rfl
  rw [htop, hmap, hstu]
  simp only [List.map_cons, List.map_nil, List.sum_cons, List.sum_nil]
  norm_num [F64.toRat]
  rw [show ((53 : Int)).toNat = 53 from rfl, show ((56 : Int)).toNat = 56 from rfl]
  norm_num

end Guiguan
